import Mathlib

namespace WFB
/-- Windows path separator (`os.PathSeparator`); the program is built for
Windows, where `filepath.Match` treats `\\` as the separator and never as an
escape character. -/
def pathSep : Char := '\\'

/-- The character-class loop of Go `matchChunk` together with `getEsc`
(path/filepath/match.go, Windows build: no escapes). Parses `lo` /
`lo-hi` ranges until `]`, recording whether rune `r` falls in any range.
`none` models `ErrBadPattern`. The `fuel` argument makes the recursion
structural; `matchRanges` below instantiates it with the chunk length, which
`matchRangesF_fuel` proves sufficient. -/
def matchRangesF (r : Char) : Nat → List Char → Nat → Bool → Option (Bool × List Char)
  | 0, _, _, _ => none
  | fuel + 1, chunk, nrange, m =>
    match chunk with
    | [] => none
    | c :: rest =>
      if c = ']' ∧ 0 < nrange then some (m, rest)
      else if c = '-' ∨ c = ']' then none
      else
        match rest with
        | [] => none
        | e :: rest2 =>
          if e = '-' then
            match rest2 with
            | [] => none
            | hi :: rest3 =>
              if hi = '-' ∨ hi = ']' then none
              else if rest3.isEmpty then none
              else matchRangesF r fuel rest3 (nrange + 1) (m || (decide (c ≤ r) && decide (r ≤ hi)))
          else
            matchRangesF r fuel rest (nrange + 1) (m || (decide (c ≤ r) && decide (r ≤ c)))

/-- The character-class loop of Go `matchChunk` at its natural fuel. -/
def matchRanges (r : Char) (chunk : List Char) (nrange : Nat) (m : Bool) :
    Option (Bool × List Char) :=
  matchRangesF r chunk.length chunk nrange m

/-- Models Go `matchChunk` (path/filepath/match.go, Windows build). The chunk
is matched against the front of the name; `none` models `ErrBadPattern`,
`some (rest, ok)` is the unmatched remainder of the name and whether the chunk
matched. After a mismatch the loop keeps scanning the chunk for syntax errors
(`failed` flag), as the Go source does. Structural in `fuel`; `matchChunk`
instantiates fuel with the chunk length, proved sufficient by
`matchChunkF_fuel`. -/
def matchChunkF : Nat → List Char → List Char → Bool → Option (List Char × Bool)
  | 0, chunk, s, failed =>
    match chunk with
    | [] => if failed then some ([], false) else some (s, true)
    | _ :: _ => none
  | fuel + 1, chunk, s, failed =>
    match chunk with
    | [] => if failed then some ([], false) else some (s, true)
    | c :: rest =>
      if c = '[' then
        match matchRanges (if failed || s.isEmpty then Char.ofNat 0 else s.headD (Char.ofNat 0))
            (if rest.headD ' ' = '^' then rest.tail else rest) 0 false with
        | none => none
        | some (m, rest2) =>
          matchChunkF fuel rest2 (if failed || s.isEmpty then s else s.tail)
            ((m == decide (rest.headD ' ' = '^')) || (failed || s.isEmpty))
      else if c = '?' then
        if failed || s.isEmpty then matchChunkF fuel rest s (failed || s.isEmpty)
        else matchChunkF fuel rest s.tail (decide (s.headD ' ' = pathSep))
      else
        if failed || s.isEmpty then matchChunkF fuel rest s (failed || s.isEmpty)
        else matchChunkF fuel rest s.tail (decide (c ≠ s.headD ' '))

/-- Go `matchChunk` at its natural fuel. -/
def matchChunk (chunk s : List Char) (failed : Bool) : Option (List Char × Bool) :=
  matchChunkF chunk.length chunk s failed

/-- Strips the leading run of stars of a pattern; the Boolean records whether
any star was present (first loop of Go `scanChunk`). -/
def stripStars : List Char → Bool × List Char
  | [] => (false, [])
  | c :: rest => if c = '*' then (true, (stripStars rest).2) else (false, c :: rest)

/-- The scanning loop of Go `scanChunk`: cuts the pattern at the next star that
is not inside a bracket class (Windows build: no `\\` escapes). -/
def scanChunkAux : Bool → List Char → List Char × List Char
  | _, [] => ([], [])
  | inrange, c :: rest =>
    if c = '*' ∧ ¬inrange then ([], c :: rest)
    else
      let p := scanChunkAux (if c = '[' then true else if c = ']' then false else inrange) rest
      (c :: p.1, p.2)

/-- Models Go `scanChunk`: (saw a star, chunk, remaining pattern). -/
def scanChunk (pattern : List Char) : Bool × List Char × List Char :=
  let s := stripStars pattern
  let c := scanChunkAux false s.2
  (s.1, c.1, c.2)

/-- Fuel bound for `goMatchF` on a pattern/name pair. -/
def goMatchFuel (pattern name : List Char) : Nat :=
  pattern.length * (name.length + 1) + name.length + 1

/-- Fuel bound for `starLoopF`. -/
def starLoopFuel (rest name : List Char) : Nat :=
  (rest.length + 1) * (name.length + 1) + name.length

mutual

/-- Models the main loop of Go `filepath.Match` (path/filepath/match.go,
Windows build); `none` models `ErrBadPattern`. Structural in `fuel`;
`goMatch` instantiates it with `goMatchFuel`, proved sufficient by
`goMatchF_fuel`. -/
def goMatchF : Nat → List Char → List Char → Option Bool
  | 0, _, _ => none
  | fuel + 1, pattern, name =>
    match pattern with
    | [] => some name.isEmpty
    | p :: ps =>
      let sc := scanChunk (p :: ps)
      if sc.1 ∧ sc.2.1 = [] then some (decide (¬ pathSep ∈ name))
      else
        match matchChunk sc.2.1 name false with
        | none => none
        | some (t, ok) =>
          if ok ∧ (t = [] ∨ sc.2.2 ≠ []) then goMatchF fuel sc.2.2 t
          else if sc.1 then starLoopF fuel sc.2.1 sc.2.2 name
          else some false

/-- The inner `for i` loop of Go `Match` that, after a `*`, retries the chunk
at successive suffixes of the name (never crossing a separator). -/
def starLoopF : Nat → List Char → List Char → List Char → Option Bool
  | 0, _, _, _ => none
  | fuel + 1, chunk, rest, name =>
    match name with
    | [] => some false
    | c :: nm =>
      if c = pathSep then some false
      else
        match matchChunk chunk nm false with
        | none => none
        | some (t, ok) =>
          if ok then
            if rest = [] ∧ t ≠ [] then starLoopF fuel chunk rest nm
            else goMatchF fuel rest t
          else starLoopF fuel chunk rest nm

end

/-- Go `filepath.Match` (Windows build) on char lists, at its natural fuel. -/
def goMatch (pattern name : List Char) : Option Bool :=
  goMatchF (goMatchFuel pattern name) pattern name

/-- Go `filepath.Match` on strings: `none` models `ErrBadPattern`. -/
def goMatchStr (pattern name : String) : Option Bool :=
  goMatch pattern.data name.data

/-- Reads a digit string back into a number (left fold over decimal digits). -/
def parseDigits : Nat → List Char → Nat
  | a, [] => a
  | a, c :: cs => parseDigits (10 * a + (c.toNat - 48)) cs

/-- Go compares strings byte-wise; on UTF-8 data this coincides with
lexicographic comparison of code points, modelled here on char lists. -/
def strLeCh : List Char → List Char → Bool
  | [], _ => true
  | _ :: _, [] => false
  | a :: as, b :: bs => if a < b then true else if b < a then false else strLeCh as bs

/-- Go `<=` on strings (the order used by `sort.Strings`). -/
def strLe (a b : String) : Bool := strLeCh a.data b.data

/-- Insertion into a sorted list (used to model `sort.Strings`; since `strLe`
is total, transitive and antisymmetric, the sorted permutation of a list of
strings is unique, so any correct sort — including Go's unstable one —
produces exactly this result). -/
def insertSorted (x : String) : List String → List String
  | [] => [x]
  | y :: ys => if strLe x y then x :: y :: ys else y :: insertSorted x ys

/-- Model of Go `sort.Strings` (ascending byte-wise lexicographic order). -/
def sortStrings : List String → List String
  | [] => []
  | x :: xs => insertSorted x (sortStrings xs)

/-- Consumes exactly `n` decimal digits. -/
def takeDigits : Nat → List Char → Option (List Char)
  | 0, cs => some cs
  | _ + 1, [] => none
  | n + 1, c :: cs => if c.isDigit then takeDigits n cs else none

/-- Consumes an exact literal prefix. -/
def stripLit : List Char → List Char → Option (List Char)
  | [], cs => some cs
  | _ :: _, [] => none
  | l :: ls, c :: cs => if c = l then stripLit ls cs else none

/-- Matches `\d{1,2}-` (the month part of the retention regex followed by the
day separator): greedily two digits then `-`, else one digit then `-`. This is
the only quantifier of the pattern where backtracking matters; both orders
accept the same strings because `-` is not a digit. -/
def monthDash : List Char → Option (List Char)
  | a :: b :: c :: rest =>
    if a.isDigit ∧ b.isDigit ∧ c = '-' then some rest
    else if a.isDigit ∧ b = '-' then some (c :: rest)
    else none
  | [a, b] => if a.isDigit ∧ b = '-' then some [] else none
  | _ => none

/-- Matches `\d{1,2}` at the end of the (unanchored-suffix) pattern: since the
regex has no `$`, one digit suffices. -/
def dayDigit : List Char → Bool
  | c :: _ => c.isDigit
  | [] => false

/-- Models `regexp.MatchString` for the anchored-prefix retention pattern
`^\d{10}_UTC-\d{4}-\d{1,2}-\d{1,2}` compiled in the retention step of `main`. -/
def backupRegMatch (s : String) : Bool :=
  match takeDigits 10 s.data with
  | none => false
  | some r1 =>
    match stripLit "_UTC-".data r1 with
    | none => false
    | some r2 =>
      match takeDigits 4 r2 with
      | none => false
      | some r3 =>
        match r3 with
        | '-' :: r4 =>
          match monthDash r4 with
          | some r5 => dayDigit r5
          | none => false
        | _ => false

/-- The panic message raised when errors occurred before retention. -/
def retentionSkipMsg : String :=
  "Errors occurred. Old backups will not be deleted automatically."

/-- The message produced when the backups directory cannot be listed (the Go
code concatenates the format string, `%s` verb included, with the error). -/
def retentionReadDirMsg (msg : String) : String :=
  "Unable to delete old backups: %s " ++ msg

/-- Outcome of the retention step. `deleted` lists the names for which
`os.Remove` was attempted, in order; `diagnostic` is the panic message if the
step aborted; `errs` is the error accumulator after the step. -/
structure RetentionResult where
  deleted : List String
  diagnostic : Option String
  errs : List String
  aborted : Bool
  deriving DecidableEq, Repr

/-- Models the retention step of `main` (`// Delete old backups.`): when the
error accumulator is nonempty, `e.panic` appends the diagnostic and aborts;
otherwise the names of the backups directory are filtered by the timestamp
pattern, sorted, and all but the last three are removed, with each removal
failure passed to `e.printIfErr`. `listingRes` is the result of
`ioutil.ReadDir` (names, in directory order) and `removeRes name` is the error
of `os.Remove` on `name`, if any. The `regexp.Compile` error branch is dead
code (the pattern is a constant that compiles) and is not modelled. -/
def retentionPhase (errs : List String) (listingRes : Except String (List String))
    (removeRes : String → Option String) : RetentionResult :=
  if errs.length > 0 then
    { deleted := [], diagnostic := some retentionSkipMsg,
      errs := errs ++ [retentionSkipMsg], aborted := true }
  else
    match listingRes with
    | .error msg =>
      { deleted := [], diagnostic := some (retentionReadDirMsg msg),
        errs := errs ++ [retentionReadDirMsg msg], aborted := true }
    | .ok listing =>
      let backupNames := listing.filter backupRegMatch
      let sorted := sortStrings backupNames
      let dc : Int := (backupNames.length : Int) - 3
      let deleteCount : Int := if dc < 0 then 0 else dc
      let old := sorted.take deleteCount.toNat
      { deleted := old, diagnostic := none,
        errs := old.foldl (fun es name =>
          match removeRes name with
          | none => es
          | some e => es ++ [e]) errs,
        aborted := false }


/-- Both `/` and `\\` are path separators on Windows
(`os.IsPathSeparator`). -/
def isPathSep (c : Char) : Bool := c = '\\' ∨ c = '/'

/-- Models Go `filepath.Base` (Windows build) for the paths this program
builds: empty path yields `.`, trailing separators are stripped, and the part
after the last separator is returned (`\\` when nothing remains). Volume-name
stripping is omitted; the program never passes bare volume paths. -/
def filepathBase (p : String) : String :=
  if p.isEmpty then "."
  else
    let cs := (p.data.reverse.dropWhile isPathSep).reverse
    let last := (cs.reverse.takeWhile (fun c => !isPathSep c)).reverse
    if last.isEmpty then "\\" else ⟨last⟩

/-- Models Go `path.Join` on the inputs this program produces: the joined
segments are directory-entry names (no separators, no dot segments), on which
the `path.Clean` inside `Join` is the identity, so `Join` is separator
concatenation; an empty element is dropped. -/
def pathJoin (a b : String) : String :=
  if a.isEmpty then b else if b.isEmpty then a else a ++ "/" ++ b

/-- A node of the file-system as observed by `addSrc`. Besides live files and
directories it records the failure modes of the syscalls `addSrc` performs:
`statErr` (`os.Stat` fails), `dirReadErr` (a directory whose
`ioutil.ReadDir` fails), `fileOpenErr` (`os.Open` fails), and `fileCopyErr`
(a file that opens but whose `io.Copy` stops with an error after writing
`written`, leaving a truncated archive entry). Error messages are carried in
the node. The zip writer itself (`w.Create`) is the external archive
collaborator and is modelled as always succeeding. -/
inductive FSNode where
  | file (content : List Nat)
  | fileOpenErr (msg : String)
  | fileCopyErr (written : List Nat) (msg : String)
  | dir (children : List (String × FSNode))
  | dirReadErr (msg : String)
  | statErr (msg : String)

/-- Outcome of the blacklist loop at the top of `addSrc`: the first pattern
that errors or matches decides. -/
inductive BlacklistCheck where
  | err (msg : String)
  | matched
  | nomatch
  deriving DecidableEq, Repr

/-- The `ErrBadPattern` message of Go `path/filepath`. -/
def badPatternMsg : String := "syntax error in pattern"

/-- The blacklist loop of `addSrc`: each pattern is matched against the base
name with `filepath.Match`; a match error is returned at once, a match skips
the path, otherwise the next pattern is tried. -/
def blCheck : List String → String → BlacklistCheck
  | [], _ => .nomatch
  | p :: ps, base =>
    match goMatchStr p base with
    | none => .err badPatternMsg
    | some true => .matched
    | some false => blCheck ps base

mutual

/-- Models `addSrc` (main.go lines 233-280): first the blacklist check on the
base name, then `os.Stat`; directories recurse over their listed children with
source and archive paths extended by the child name, accumulating all
children's errors; regular files produce one archive entry at the destination
path. Returns (archive entries in write order, errors in order). -/
def addSrc : FSNode → String → String → List String → List (String × List Nat) × List String
  | node, srcPath, dstPath, blacklist =>
    match blCheck blacklist (filepathBase srcPath) with
    | .err e => ([], [e])
    | .matched => ([], [])
    | .nomatch =>
      match node with
      | .statErr m => ([], [m])
      | .dir children => addSrcChildren children srcPath dstPath blacklist
      | .dirReadErr m => ([], [m])
      | .file content => ([(dstPath, content)], [])
      | .fileOpenErr m => ([], [m])
      | .fileCopyErr written m => ([(dstPath, written)], [m])

/-- The child loop of the directory branch of `addSrc`. -/
def addSrcChildren :
    List (String × FSNode) → String → String → List String →
    List (String × List Nat) × List String
  | [], _, _, _ => ([], [])
  | (name, child) :: rest, srcPath, dstPath, blacklist =>
    let r := addSrc child (pathJoin srcPath name) (pathJoin dstPath name) blacklist
    let rs := addSrcChildren rest srcPath dstPath blacklist
    (r.1 ++ rs.1, r.2 ++ rs.2)

end


/-- A notification contact (struct Contact). -/
structure Contact where
  name : String
  email : String
  deriving DecidableEq, Repr

/-- A configured source (struct Source). -/
structure SourceCfg where
  path : String
  blacklist : List String
  deriving DecidableEq, Repr

/-- The JSON configuration (struct configuration). -/
structure Configuration where
  name : String
  sendGridEnable : Bool
  sendGridAPIKey : String
  sendGridFromAddress : String
  salesScribeAPIKey : String
  salesScribeEnable : Bool
  errorContacts : List Contact
  sources : List SourceCfg
  deriving DecidableEq, Repr

/-- The zero value of the configuration struct: this is what the deferred
reporter sees when the run aborts before the configuration is unmarshalled. -/
def zeroConfiguration : Configuration :=
  { name := "", sendGridEnable := false, sendGridAPIKey := "",
    sendGridFromAddress := "", salesScribeAPIKey := "", salesScribeEnable := false,
    errorContacts := [], sources := [] }

/-- Lower-case hexadecimal digit. -/
def hexDigit (n : Nat) : Char := if n < 10 then Char.ofNat (48 + n) else Char.ofNat (87 + n)

def hex4 (n : Nat) : List Char :=
  [hexDigit (n / 4096 % 16), hexDigit (n / 256 % 16), hexDigit (n / 16 % 16), hexDigit (n % 16)]

/-- Models Go strconv.Quote on one char: quote and backslash are escaped,
printable ASCII passes through, the named control escapes apply, and anything
else is hex-escaped. (Printable non-ASCII runes, which Go prints directly, are
conservatively escaped here; every string the program quotes in the claims
under study is ASCII.) -/
def goQuoteChar (c : Char) : List Char :=
  if c = '"' ∨ c = '\\' then ['\\', c]
  else if 0x20 ≤ c.toNat ∧ c.toNat < 0x7f then [c]
  else if c = Char.ofNat 7 then ['\\', 'a']
  else if c = Char.ofNat 8 then ['\\', 'b']
  else if c = Char.ofNat 12 then ['\\', 'f']
  else if c = '\n' then ['\\', 'n']
  else if c = Char.ofNat 13 then ['\\', 'r']
  else if c = '\t' then ['\\', 't']
  else if c = Char.ofNat 11 then ['\\', 'v']
  else if c.toNat < 0x80 then ['\\', 'x', hexDigit (c.toNat / 16 % 16), hexDigit (c.toNat % 16)]
  else if c.toNat < 0x10000 then '\\' :: 'u' :: hex4 c.toNat
  else '\\' :: 'U' :: (hex4 (c.toNat / 65536) ++ hex4 (c.toNat % 65536))

/-- Models Go strconv.Quote: a double-quoted Go string literal. -/
def goQuote (s : String) : String :=
  ⟨'"' :: (s.data.foldr (fun c acc => goQuoteChar c ++ acc) ['"'])⟩

/-- Models the string escaping of Go encoding/json (HTML escaping on, as in
json.Marshal): quote, backslash, the angle brackets and ampersand, and control
characters are escaped. -/
def jsonQuoteChar (c : Char) : List Char :=
  if c = '"' then ['\\', '"']
  else if c = '\\' then ['\\', '\\']
  else if c = '<' then ['\\', 'u', '0', '0', '3', 'c']
  else if c = '>' then ['\\', 'u', '0', '0', '3', 'e']
  else if c = '&' then ['\\', 'u', '0', '0', '2', '6']
  else if c = '\n' then ['\\', 'n']
  else if c = Char.ofNat 13 then ['\\', 'r']
  else if c = '\t' then ['\\', 't']
  else if c.toNat < 0x20 then '\\' :: 'u' :: hex4 c.toNat
  else [c]

def jsonQuote (s : String) : String :=
  ⟨'"' :: (s.data.foldr (fun c acc => jsonQuoteChar c ++ acc) ['"'])⟩

/-- Models json.Marshal of one error contact (tags name/email). -/
def marshalContact (c : Contact) : String :=
  "\x7b\"name\":" ++ jsonQuote c.name ++ ",\"email\":" ++ jsonQuote c.email ++ "\x7d"

/-- Models json.Marshal of the error-contact slice (compact form used by the
SendGrid request body). -/
def marshalContacts (cs : List Contact) : String :=
  "[" ++ String.intercalate "," (cs.map marshalContact) ++ "]"

/-- Models json.MarshalIndent of one salesScribeContact (tags name/address)
with one level of tab indent. -/
def marshalSSContact (c : Contact) : String :=
  "\x7b\n\t\t\"name\": " ++ jsonQuote c.name ++ ",\n\t\t\"address\": "
    ++ jsonQuote c.email ++ "\n\t\x7d"

/-- Models json.MarshalIndent(contacts, "", "\t") for the contact slice that
salesScribe builds from the error contacts. -/
def marshalSSContacts (cs : List Contact) : String :=
  if cs.isEmpty then "[]"
  else "[\n\t" ++ String.intercalate ",\n\t" (cs.map marshalSSContact) ++ "\n]"

/-- An HTTP response as the reporter observes it: status code and body, with
none for a body that cannot be read (ioutil.ReadAll failure). -/
structure HttpResponse where
  statusCode : Nat
  body : Option String
  deriving DecidableEq, Repr

/-- Outcome of httpClient.Do: transport error or a response. -/
inductive HttpOutcome where
  | netErr (msg : String)
  | resp (r : HttpResponse)
  deriving DecidableEq, Repr

/-- What one provider send did: the request body if an HTTP POST was made, and
the error value the provider function returned (none on success). -/
structure SendAttempt where
  httpSent : Option String
  result : Option String
  deriving DecidableEq, Repr

def noSalesScribeKeyMsg : String := "No SalesScribe API key for report email."

def noSendGridKeyMsg : String := "No SendGrid API key for report email."

/-- The request body salesScribe builds (the Go raw string literal with its
embedded tabs and newlines; subject and message are already quoted by the
caller). ErrorContacts is nonempty whenever this runs, since report returns
first otherwise; headD covers the index expression ErrorContacts[0]. -/
def salesScribeRequestBody (config : Configuration) (subject message : String) : String :=
  "\x7b\n\t\t\"DynamicDataJson\": "
    ++ goQuote ("\x7b\"email\": " ++ goQuote (config.errorContacts.headD ⟨"", ""⟩).email
      ++ ", \"fullName\": " ++ goQuote (config.errorContacts.headD ⟨"", ""⟩).name
      ++ ", \"subject\": " ++ subject ++ ", \"message\": " ++ message ++ "\x7d")
    ++ ",\n\t\t\"ToAddresses\": " ++ marshalSSContacts config.errorContacts
    ++ "\n\t\x7d"

/-- The non-2xx error text of salesScribe (the spelling Reponse is in the
source). -/
def salesScribeErrMsg (status : Nat) (body requestBody : String) : String :=
  "SalesScribe returned non-200 status code \"" ++ Nat.repr status
    ++ "\".\n\nReponse body: \"" ++ body ++ "\".\n\nRequest body: \"" ++ requestBody ++ "\""

/-- Models the salesScribe function: a missing API key is returned as a local
error before any request is built or sent; otherwise the request body is
built and POSTed, and a non-2xx status is turned into an error carrying the
status code, the response body (with the fallback text when the body cannot
be read) and the request body. The json.MarshalIndent and http.NewRequest
error branches are dead on this input space (marshalling strings cannot fail;
the URL is a constant) and are not modelled. -/
def salesScribe (config : Configuration) (subject message : String)
    (http : HttpOutcome) : SendAttempt :=
  if config.salesScribeAPIKey = "" then
    { httpSent := none, result := some noSalesScribeKeyMsg }
  else
    let requestBody := salesScribeRequestBody config subject message
    match http with
    | .netErr msg => { httpSent := some requestBody, result := some msg }
    | .resp r =>
      if r.statusCode / 100 ≠ 2 then
        { httpSent := some requestBody,
          result := some (salesScribeErrMsg r.statusCode
            (r.body.getD "Error retrieving response body") requestBody) }
      else { httpSent := some requestBody, result := none }

/-- The request body sendGrid builds. -/
def sendGridRequestBody (config : Configuration) (subject message : String) : String :=
  "\x7b\n\t\t\"personalizations\": [\x7b\"to\": " ++ marshalContacts config.errorContacts
    ++ "\x7d],\n\t\t\"from\": \x7b\"email\": " ++ goQuote config.sendGridFromAddress
    ++ "\x7d,\n\t\t\"subject\": " ++ subject
    ++ ",\n\t\t\"content\": [\x7b\n\t\t\t\"type\": \"text/plain\",\n\t\t\t\"value\": "
    ++ message ++ "\n\t\t\x7d]\n\t\x7d"

/-- The non-2xx error text of sendGrid (note the fallback body text differs
from the salesScribe one, as in the source). -/
def sendGridErrMsg (status : Nat) (body requestBody : String) : String :=
  "SendGrid returned non-200 status code \"" ++ Nat.repr status
    ++ "\".\n\nReponse body: \"" ++ body ++ "\".\n\nRequest body: \"" ++ requestBody ++ "\""

/-- Models the sendGrid function, mirroring salesScribe with its own key
check, request body, bearer header and fallback body text. -/
def sendGrid (config : Configuration) (subject message : String)
    (http : HttpOutcome) : SendAttempt :=
  if config.sendGridAPIKey = "" then
    { httpSent := none, result := some noSendGridKeyMsg }
  else
    let requestBody := sendGridRequestBody config subject message
    match http with
    | .netErr msg => { httpSent := some requestBody, result := some msg }
    | .resp r =>
      if r.statusCode / 100 ≠ 2 then
        { httpSent := some requestBody,
          result := some (sendGridErrMsg r.statusCode
            (r.body.getD "Error reading response body") requestBody) }
      else { httpSent := some requestBody, result := none }

def reportWarnMsg : String := "Warning: No error contacts were specified."

def reportNoErrsMsg : String := "No errors occurred."

/-- The quoted subject line report builds. -/
def reportSubject (config : Configuration) : String :=
  goQuote ("Errors while backing up " ++ config.name)

/-- The quoted plain-text message report builds: the backup name and the
newline-joined accumulated error texts. -/
def reportMessage (config : Configuration) (errs : List String) : String :=
  goQuote ("Errors occurred while backing up " ++ config.name ++ ":\n"
    ++ String.join (errs.map (fun e => e ++ "\n")))

/-- Result of the deferred reporter: the log lines it printed and what each
provider did (none when the provider was disabled or the function returned
before the provider section). -/
structure ReportResult where
  log : List String
  ssAttempt : Option SendAttempt
  sgAttempt : Option SendAttempt
  deriving DecidableEq, Repr

/-- Models report: with no error contacts it warns and returns; with an empty
error accumulator it logs and returns; otherwise each enabled provider is
invoked in turn, its error (if any) only logged, so the SalesScribe outcome
never affects the SendGrid attempt. -/
def report (errs : List String) (config : Configuration)
    (ssHttp sgHttp : HttpOutcome) : ReportResult :=
  if config.errorContacts.length = 0 then
    { log := [reportWarnMsg], ssAttempt := none, sgAttempt := none }
  else if errs.length = 0 then
    { log := [reportNoErrsMsg], ssAttempt := none, sgAttempt := none }
  else
    let subject := reportSubject config
    let message := reportMessage config errs
    let ss := if config.salesScribeEnable then
        some (salesScribe config subject message ssHttp)
      else none
    let sg := if config.sendGridEnable then
        some (sendGrid config subject message sgHttp)
      else none
    { log :=
        (match ss with
         | some att => "Sending error email via SalesScribe." ::
             (match att.result with | some m => [m] | none => [])
         | none => []) ++
        (match sg with
         | some att => "Sending error email via SendGrid." ::
             (match att.result with | some m => [m] | none => [])
         | none => []),
      ssAttempt := ss, sgAttempt := sg }

/-! ### The source loop of main -/

/-- fmt.Sprintf("source-%d:-%s", i, base): the per-source archive namespace
label (callers pass the 1-based source index). -/
def srcLabel (i : Nat) (base : String) : String :=
  "source-" ++ Nat.repr i ++ ":-" ++ base

/-- Models the source loop of main in main.go (lines 93-101): each configured
path is joined onto the destination directory, and addSrc is invoked with the
indexed label of the source base name; all returned errors are printed into
the accumulator in order. Returns (archive entries, errors). -/
def addSources (dstDirPath : String) (fs : String → FSNode) :
    List SourceCfg → Nat → List (String × List Nat) × List String
  | [], _ => ([], [])
  | s :: rest, i =>
    let p := pathJoin dstDirPath s.path
    let r := addSrc (fs p) p (srcLabel (i + 1) (filepathBase p)) s.blacklist
    let rs := addSources dstDirPath fs rest (i + 1)
    (r.1 ++ rs.1, r.2 ++ rs.2)

/-- Models the source loop of main in part_001 (lines 94-101), which uses the
configured path directly without joining it onto the destination directory. -/
def sourcesPhase (fs : String → FSNode) :
    List SourceCfg → Nat → List (String × List Nat) × List String
  | [], _ => ([], [])
  | s :: rest, i =>
    let r := addSrc (fs s.path) s.path (srcLabel (i + 1) (filepathBase s.path)) s.blacklist
    let rs := sourcesPhase fs rest (i + 1)
    (r.1 ++ rs.1, r.2 ++ rs.2)

/-! ### The body of main (part_001 lines 43-136) and the deferred reporter -/

/-- The usage error printed by main when the directory argument is missing. -/
def usageMsg : String :=
  "Not enough arguments. Usage: \"backup <directory to store backups>\""

/-- How the body of main ended: the early return on a missing argument, a
panic through e.panic or logger.Panic, or normal completion. -/
inductive BodyOutcome where
  | earlyReturn
  | panicked
  | completed
  deriving DecidableEq, Repr

/-- The environment of one run of main: which fallible startup steps fail and
with what error, the observed file system, the backups directory listing, the
per-name os.Remove outcomes, and the HTTP outcomes of the two providers.
mkdirErr is an os.Mkdir error for which os.IsExist is false (an existing
directory is not an error in the source). -/
structure MainWorld where
  argsOk : Bool
  loggerErr : Option String
  absErr : Option String
  readConfigErr : Option String
  unmarshalRes : Except String Configuration
  mkdirErr : Option String
  createErr : Option String
  fs : String → FSNode
  listingRes : Except String (List String)
  removeRes : String → Option String
  ssHttp : HttpOutcome
  sgHttp : HttpOutcome

/-- State of the run when the body of main has ended, as the deferred
reporter observes it: the error accumulator, the configuration value (the
zero value until json.Unmarshal succeeds), how the body ended, the archive
entries written, and the deletions attempted. -/
structure BodyResult where
  errs : List String
  config : Configuration
  outcome : BodyOutcome
  archive : List (String × List Nat)
  deletions : List String
  deriving Repr

/-- Models the body of main in part_001 (lines 43-136): the CLI check (which
prints the usage error and returns), then logger setup, filepath.Abs, config
read and unmarshal, backups directory and destination file creation — each
aborting through e.panicIfErr on failure — then the source loop and the
retention step. The deferred reporter is NOT part of the body; runMain
sequences it unconditionally afterwards, which is how Go defer behaves on
every one of these exits. -/
def mainBody (w : MainWorld) : BodyResult :=
  if ¬w.argsOk then
    { errs := [usageMsg], config := zeroConfiguration, outcome := .earlyReturn,
      archive := [], deletions := [] }
  else
    match w.loggerErr with
    | some e =>
      { errs := [e], config := zeroConfiguration, outcome := .panicked,
        archive := [], deletions := [] }
    | none =>
    match w.absErr with
    | some e =>
      { errs := [e], config := zeroConfiguration, outcome := .panicked,
        archive := [], deletions := [] }
    | none =>
    match w.readConfigErr with
    | some e =>
      { errs := [e], config := zeroConfiguration, outcome := .panicked,
        archive := [], deletions := [] }
    | none =>
    match w.unmarshalRes with
    | .error e =>
      { errs := [e], config := zeroConfiguration, outcome := .panicked,
        archive := [], deletions := [] }
    | .ok config =>
    match w.mkdirErr with
    | some e =>
      { errs := [e], config := config, outcome := .panicked,
        archive := [], deletions := [] }
    | none =>
    match w.createErr with
    | some e =>
      { errs := [e], config := config, outcome := .panicked,
        archive := [], deletions := [] }
    | none =>
      let src := sourcesPhase w.fs config.sources 0
      let ret := retentionPhase src.2 w.listingRes w.removeRes
      { errs := ret.errs, config := config,
        outcome := if ret.aborted then .panicked else .completed,
        archive := src.1, deletions := ret.deleted }

/-- A full run of the process. -/
structure RunResult where
  body : BodyResult
  report : ReportResult
  deriving Repr

/-- Models one process run: defer report(&e, &config) is registered before
any fallible step of main, so Go executes the reporter on every exit path —
the early return, every panic unwind, and normal completion. runMain
therefore always applies report to the final accumulator and configuration. -/
def runMain (w : MainWorld) : RunResult :=
  let b := mainBody w
  { body := b, report := report b.errs b.config w.ssHttp w.sgHttp }

/-! ### Declarative forms of the retention filename pattern -/

/-- Every char of the list is a decimal digit. -/
def allDigits (l : List Char) : Prop := ∀ c ∈ l, c.isDigit = true

instance (l : List Char) : Decidable (allDigits l) :=
  inferInstanceAs (Decidable (∀ c ∈ l, c.isDigit = true))

/-- The retention filename pattern exactly as claim C3 words it: ten digits,
the literal _UTC-, one to four digits, a dash, one to two digits, a dash, one
to two digits, as a prefix of the name. -/
def claimC3Pattern (s : String) : Prop :=
  ∃ ts y mo d rest : List Char,
    s.data = ts ++ "_UTC-".data ++ y ++ ['-'] ++ mo ++ ['-'] ++ d ++ rest
    ∧ ts.length = 10 ∧ allDigits ts
    ∧ 1 ≤ y.length ∧ y.length ≤ 4 ∧ allDigits y
    ∧ 1 ≤ mo.length ∧ mo.length ≤ 2 ∧ allDigits mo
    ∧ 1 ≤ d.length ∧ d.length ≤ 2 ∧ allDigits d

/-- The same pattern with the year corrected to exactly four digits, which is
what the compiled regex \d{4} of the source requires. -/
def codeRetentionPattern (s : String) : Prop :=
  ∃ ts y mo d rest : List Char,
    s.data = ts ++ "_UTC-".data ++ y ++ ['-'] ++ mo ++ ['-'] ++ d ++ rest
    ∧ ts.length = 10 ∧ allDigits ts
    ∧ y.length = 4 ∧ allDigits y
    ∧ 1 ≤ mo.length ∧ mo.length ≤ 2 ∧ allDigits mo
    ∧ 1 ≤ d.length ∧ d.length ≤ 2 ∧ allDigits d

/-! ### Concrete fixtures used by witnesses and counterexamples -/

/-- The file system of the two-source example of spec section 8: source ./a
holds x.txt and skip.bad, source ./b holds y.txt (byte contents are the ASCII
codes of x, k and y). -/
def exampleFS : String → FSNode := fun p =>
  if p = "./a" then .dir [("x.txt", .file [120]), ("skip.bad", .file [107])]
  else if p = "./b" then .dir [("y.txt", .file [121])]
  else .statErr "stat error"

/-- The two sources of the section 8 example, with the blacklist of source a. -/
def exampleSources : List SourceCfg :=
  [{ path := "./a", blacklist := ["*.bad"] }, { path := "./b", blacklist := [] }]

/-- A configuration with one contact and both providers enabled and keyed. -/
def exampleConfig : Configuration :=
  { name := "test", sendGridEnable := true, sendGridAPIKey := "sg-key",
    sendGridFromAddress := "from@example.com", salesScribeAPIKey := "ss-key",
    salesScribeEnable := true,
    errorContacts := [{ name := "N", email := "n@example.com" }],
    sources := [] }

/-- A run in which every step succeeds except one retention deletion: four
eligible backups exist, the oldest is removed, and os.Remove fails. -/
def removeFailWorld : MainWorld :=
  { argsOk := true, loggerErr := none, absErr := none, readConfigErr := none,
    unmarshalRes := .ok exampleConfig, mkdirErr := none, createErr := none,
    fs := fun _ => .statErr "stat error",
    listingRes := .ok ["1000000000_UTC-2001-1-1.zip", "1000000001_UTC-2001-1-2.zip",
      "1000000002_UTC-2001-1-3.zip", "1000000003_UTC-2001-1-4.zip"],
    removeRes := fun _ => some "remove failed",
    ssHttp := .resp { statusCode := 200, body := some "" },
    sgHttp := .resp { statusCode := 200, body := some "" } }

/-- A configuration naming no error contacts but with both providers enabled
and keyed, and one source that cannot be stat-ed. -/
def noContactsConfig : Configuration :=
  { exampleConfig with
    errorContacts := [],
    sources := [{ path := "src1", blacklist := [] }] }

/-- A run whose accumulator is nonempty at exit (the source stat fails) while
the configuration names no contacts: the reporter runs but sends nothing. -/
def noContactsWorld : MainWorld :=
  { removeFailWorld with
    unmarshalRes := .ok noContactsConfig,
    removeRes := fun _ => none }

theorem matchRangesF_fuel_aux {r : Char} :
    ∀ (n : Nat) (chunk : List Char), chunk.length ≤ n →
    ∀ (f₁ f₂ : Nat), chunk.length ≤ f₁ → chunk.length ≤ f₂ →
    ∀ {nrange : Nat} {m : Bool},
    matchRangesF r f₁ chunk nrange m = matchRangesF r f₂ chunk nrange m := by
  intro n
  induction n with
  | zero =>
    intro chunk hlen f₁ f₂ h₁ h₂ nrange m
    have hc : chunk = [] := List.length_eq_zero.mp (Nat.le_zero.mp hlen)
    subst hc
    match f₁, f₂ with
    | 0, 0 => rfl
    | 0, g + 1 => rfl
    | g + 1, 0 => rfl
    | g + 1, g' + 1 => rfl
  | succ n ih =>
    intro chunk hlen f₁ f₂ h₁ h₂ nrange m
    match chunk with
    | [] =>
      match f₁, f₂ with
      | 0, 0 => rfl
      | 0, g + 1 => rfl
      | g + 1, 0 => rfl
      | g + 1, g' + 1 => rfl
    | c :: rest =>
      simp only [List.length_cons] at hlen h₁ h₂
      match f₁, f₂ with
      | g₁ + 1, g₂ + 1 =>
        simp only [matchRangesF]
        split
        · rfl
        · split
          · rfl
          · match rest with
            | [] => rfl
            | e :: rest2 =>
              simp only
              split
              · match rest2 with
                | [] => rfl
                | hi :: rest3 =>
                  simp only
                  split
                  · rfl
                  · split
                    · rfl
                    · exact ih rest3 (by simp only [List.length_cons] at hlen; omega) g₁ g₂
                        (by simp only [List.length_cons] at h₁; omega)
                        (by simp only [List.length_cons] at h₂; omega)
              · exact ih (e :: rest2) (by simp only [List.length_cons] at hlen ⊢; omega) g₁ g₂
                  (by simp only [List.length_cons] at h₁ ⊢; omega)
                  (by simp only [List.length_cons] at h₂ ⊢; omega)

theorem matchRangesF_fuel {r : Char} {f : Nat} {chunk : List Char}
    (hf : chunk.length ≤ f) {nrange : Nat} {m : Bool} :
    matchRangesF r f chunk nrange m = matchRanges r chunk nrange m :=
  matchRangesF_fuel_aux chunk.length chunk le_rfl f chunk.length hf le_rfl

theorem matchRangesF_some_length {r : Char} :
    ∀ (f : Nat) {chunk : List Char} {nrange : Nat} {m m' : Bool} {rest : List Char},
    matchRangesF r f chunk nrange m = some (m', rest) → rest.length < chunk.length := by
  intro f
  induction f with
  | zero => intro chunk nrange m m' rest h; simp [matchRangesF] at h
  | succ f ih =>
    intro chunk nrange m m' rest h
    match chunk with
    | [] => simp [matchRangesF] at h
    | c :: cr =>
      simp only [matchRangesF] at h
      split at h
      · cases h; simp
      · split at h
        · cases h
        · match cr with
          | [] => cases h
          | e :: rest2 =>
            simp only at h
            split at h
            · match rest2 with
              | [] => cases h
              | hi :: rest3 =>
                simp only at h
                split at h
                · cases h
                · split at h
                  · cases h
                  · have := ih h
                    simp only [List.length_cons] at this ⊢
                    omega
            · have := ih h
              simp only [List.length_cons] at this ⊢
              omega

theorem matchRanges_some_length {r : Char} {chunk : List Char} {nrange : Nat}
    {m m' : Bool} {rest : List Char}
    (h : matchRanges r chunk nrange m = some (m', rest)) : rest.length < chunk.length :=
  matchRangesF_some_length chunk.length h

theorem matchChunkF_fuel_aux :
    ∀ (n : Nat) (chunk : List Char), chunk.length ≤ n →
    ∀ (f₁ f₂ : Nat), chunk.length ≤ f₁ → chunk.length ≤ f₂ →
    ∀ {s : List Char} {failed : Bool},
    matchChunkF f₁ chunk s failed = matchChunkF f₂ chunk s failed := by
  intro n
  induction n with
  | zero =>
    intro chunk hlen f₁ f₂ h₁ h₂ s failed
    have hc : chunk = [] := List.length_eq_zero.mp (Nat.le_zero.mp hlen)
    subst hc
    match f₁, f₂ with
    | 0, 0 => rfl
    | 0, g + 1 => rfl
    | g + 1, 0 => rfl
    | g + 1, g' + 1 => rfl
  | succ n ih =>
    intro chunk hlen f₁ f₂ h₁ h₂ s failed
    match chunk with
    | [] =>
      match f₁, f₂ with
      | 0, 0 => rfl
      | 0, g + 1 => rfl
      | g + 1, 0 => rfl
      | g + 1, g' + 1 => rfl
    | c :: rest =>
      simp only [List.length_cons] at hlen h₁ h₂
      match f₁, f₂ with
      | g₁ + 1, g₂ + 1 =>
        simp only [matchChunkF]
        split
        · split
          · rfl
          · rename_i m rest2 hmr
            have hlt := matchRanges_some_length hmr
            have ht : (if rest.headD ' ' = '^' then rest.tail else rest).length ≤ rest.length := by
              split
              · exact (List.length_tail rest) ▸ Nat.sub_le _ _
              · exact le_rfl
            exact ih rest2 (by omega) g₁ g₂ (by omega) (by omega)
        · split
          · split
            · exact ih rest (by omega) g₁ g₂ (by omega) (by omega)
            · exact ih rest (by omega) g₁ g₂ (by omega) (by omega)
          · split
            · exact ih rest (by omega) g₁ g₂ (by omega) (by omega)
            · exact ih rest (by omega) g₁ g₂ (by omega) (by omega)

theorem matchChunkF_fuel {f : Nat} {chunk : List Char} (hf : chunk.length ≤ f)
    {s : List Char} {failed : Bool} :
    matchChunkF f chunk s failed = matchChunk chunk s failed :=
  matchChunkF_fuel_aux chunk.length chunk le_rfl f chunk.length hf le_rfl

theorem matchChunkF_some_length :
    ∀ (f : Nat) {chunk s : List Char} {failed : Bool} {t : List Char} {ok : Bool},
    matchChunkF f chunk s failed = some (t, ok) → t.length ≤ s.length := by
  intro f
  induction f with
  | zero =>
    intro chunk s failed t ok h
    match chunk with
    | [] =>
      simp only [matchChunkF] at h
      split at h
      · cases h; simp
      · cases h; exact le_rfl
    | _ :: _ => simp [matchChunkF] at h
  | succ f ih =>
    intro chunk s failed t ok h
    match chunk with
    | [] =>
      simp only [matchChunkF] at h
      split at h
      · cases h; simp
      · cases h; exact le_rfl
    | c :: rest =>
      simp only [matchChunkF] at h
      split at h
      · split at h
        · cases h
        · refine le_trans (ih h) ?_
          split
          · exact le_rfl
          · exact (List.length_tail s) ▸ Nat.sub_le _ _
      · split at h
        · split at h
          · exact ih h
          · exact le_trans (ih h) ((List.length_tail s) ▸ Nat.sub_le _ _)
        · split at h
          · exact ih h
          · exact le_trans (ih h) ((List.length_tail s) ▸ Nat.sub_le _ _)

theorem matchChunk_some_length {chunk s : List Char} {failed : Bool} {t : List Char} {ok : Bool}
    (h : matchChunk chunk s failed = some (t, ok)) : t.length ≤ s.length :=
  matchChunkF_some_length chunk.length h

theorem stripStars_false {p : List Char} (h : (stripStars p).1 = false) :
    (stripStars p).2 = p := by
  match p with
  | [] => rfl
  | c :: rest =>
    rw [stripStars] at h ⊢
    split at h
    · simp at h
    · split
      · rename_i hc; simp_all
      · rfl

theorem stripStars_length (p : List Char) : (stripStars p).2.length ≤ p.length := by
  match p with
  | [] => exact le_rfl
  | c :: rest =>
    rw [stripStars]
    split
    · have := stripStars_length rest
      simpa using Nat.le_succ_of_le this
    · exact le_rfl

theorem stripStars_head (p : List Char) :
    (stripStars p).2 = [] ∨ (stripStars p).2.headD ' ' ≠ '*' := by
  match p with
  | [] => exact Or.inl rfl
  | c :: rest =>
    rw [stripStars]
    split
    · exact stripStars_head rest
    · rename_i hc
      exact Or.inr (by simpa using hc)

theorem scanChunkAux_append (b : Bool) (p : List Char) :
    (scanChunkAux b p).1 ++ (scanChunkAux b p).2 = p := by
  induction p generalizing b with
  | nil => rfl
  | cons c rest ih =>
    rw [scanChunkAux]
    split
    · rfl
    · simpa using ih _

theorem scanChunkAux_nil_chunk {b : Bool} {p : List Char}
    (h : (scanChunkAux b p).1 = []) : p = [] ∨ p.headD ' ' = '*' := by
  match p with
  | [] => exact Or.inl rfl
  | c :: rest =>
    rw [scanChunkAux] at h
    split at h
    · rename_i hc
      exact Or.inr (by simp [hc.1])
    · simp at h

/-- The chunk and remainder of `scanChunk` together are no longer than the
pattern. -/
theorem scanChunk_length (p : List Char) :
    (scanChunk p).2.1.length + (scanChunk p).2.2.length ≤ p.length := by
  have h3 := scanChunkAux_append false (stripStars p).2
  have h4 := stripStars_length p
  have h5 : (scanChunk p).2.1.length + (scanChunk p).2.2.length
      = (stripStars p).2.length := by
    rw [scanChunk]
    simp only [← List.length_append, h3]
  omega

/-- If `scanChunk` yields an empty chunk on a nonempty pattern, then a star was
seen (the pattern consisted solely of stars). -/
theorem scanChunk_nil_chunk {p : List Char} (hp : p ≠ [])
    (h : (scanChunk p).2.1 = []) : (scanChunk p).1 = true := by
  have h1 : (scanChunkAux false (stripStars p).2).1 = [] := h
  rcases scanChunkAux_nil_chunk h1 with h2 | h2
  · by_contra hs
    have hsf : (stripStars p).1 = false := by
      cases hq : (stripStars p).1
      · rfl
      · exact absurd hq hs
    have := stripStars_false hsf
    exact hp (by rw [← this, h2])
  · rcases stripStars_head p with h3 | h3
    · by_contra hs
      have hsf : (stripStars p).1 = false := by
        cases hq : (stripStars p).1
        · rfl
        · exact absurd hq hs
      have := stripStars_false hsf
      exact hp (by rw [← this, h3])
    · exact absurd h2 h3

namespace FuelBounds

theorem lt_go_go {R T P N : Nat} (hR : R + 1 ≤ P) (hT : T ≤ N) :
    R * (T + 1) + T + 1 < P * (N + 1) + N + 1 := by
  have h1 : R * (T + 1) ≤ R * (N + 1) := Nat.mul_le_mul_left _ (by omega)
  have h2 : (R + 1) * (N + 1) ≤ P * (N + 1) := Nat.mul_le_mul_right _ hR
  have h3 : (R + 1) * (N + 1) = R * (N + 1) + (N + 1) := by ring
  omega

theorem lt_go_star {R P N : Nat} (hR : R + 1 ≤ P) :
    (R + 1) * (N + 1) + N < P * (N + 1) + N + 1 := by
  have h2 : (R + 1) * (N + 1) ≤ P * (N + 1) := Nat.mul_le_mul_right _ hR
  omega

theorem lt_star_star {R N : Nat} : (R + 1) * (N + 1) + N < (R + 1) * (N + 1 + 1) + N + 1 := by
  have : (R + 1) * (N + 1) ≤ (R + 1) * (N + 1 + 1) := Nat.mul_le_mul_left _ (by omega)
  omega

theorem lt_star_go {R T N : Nat} (hT : T ≤ N) :
    R * (T + 1) + T + 1 < (R + 1) * (N + 1 + 1) + N + 1 := by
  have h1 : R * (T + 1) ≤ R * (N + 2) := Nat.mul_le_mul_left _ (by omega)
  have h2 : (R + 1) * (N + 2) = R * (N + 2) + (N + 2) := by ring
  have h3 : (R + 1) * (N + 1 + 1) = (R + 1) * (N + 2) := by ring
  omega

end FuelBounds

theorem goMatchF_fuel_aux :
    ∀ (m : Nat),
    (∀ (pattern name : List Char) (f₁ f₂ : Nat),
       goMatchFuel pattern name ≤ m → goMatchFuel pattern name ≤ f₁ →
       goMatchFuel pattern name ≤ f₂ →
       goMatchF f₁ pattern name = goMatchF f₂ pattern name) ∧
    (∀ (chunk rest name : List Char) (f₁ f₂ : Nat),
       starLoopFuel rest name ≤ m → starLoopFuel rest name ≤ f₁ →
       starLoopFuel rest name ≤ f₂ →
       starLoopF f₁ chunk rest name = starLoopF f₂ chunk rest name) := by
  intro m
  induction m using Nat.strong_induction_on with
  | _ m ih =>
    constructor
    · intro pattern name f₁ f₂ hm h₁ h₂
      have hpos : 1 ≤ goMatchFuel pattern name := by
        rw [goMatchFuel]; omega
      match f₁, f₂ with
      | 0, _ => omega
      | _ + 1, 0 => omega
      | g₁ + 1, g₂ + 1 =>
        simp only [goMatchF]
        match pattern with
        | [] => rfl
        | p :: ps =>
          simp only
          split
          · rfl
          · rename_i hcond
            have hchunk : (scanChunk (p :: ps)).2.1 ≠ [] := by
              intro hnil
              exact hcond ⟨scanChunk_nil_chunk (List.cons_ne_nil p ps) hnil, hnil⟩
            have hlen := scanChunk_length (p :: ps)
            have hR : (scanChunk (p :: ps)).2.2.length + 1 ≤ (p :: ps).length := by
              have : 0 < (scanChunk (p :: ps)).2.1.length := List.length_pos.mpr hchunk
              omega
            split
            · rfl
            · rename_i t ok hmc
              have hT := matchChunk_some_length hmc
              split
              · -- goMatch rest t on both sides
                have hM' : goMatchFuel (scanChunk (p :: ps)).2.2 t < goMatchFuel (p :: ps) name := by
                  rw [goMatchFuel, goMatchFuel]
                  simp only [List.length_cons]
                  simp only [List.length_cons] at hR
                  exact FuelBounds.lt_go_go hR hT
                exact (ih (goMatchFuel (scanChunk (p :: ps)).2.2 t) (by omega)).1
                  _ _ g₁ g₂ le_rfl (by omega) (by omega)
              · split
                · -- starLoop on both sides
                  have hM' : starLoopFuel (scanChunk (p :: ps)).2.2 name
                      < goMatchFuel (p :: ps) name := by
                    rw [starLoopFuel, goMatchFuel]
                    simp only [List.length_cons]
                    simp only [List.length_cons] at hR
                    exact FuelBounds.lt_go_star hR
                  exact (ih (starLoopFuel (scanChunk (p :: ps)).2.2 name) (by omega)).2
                    _ _ _ g₁ g₂ le_rfl (by omega) (by omega)
                · rfl
    · intro chunk rest name f₁ f₂ hm h₁ h₂
      have hpos : 1 ≤ starLoopFuel rest name := by
        rw [starLoopFuel]
        have : 0 < (rest.length + 1) * (name.length + 1) :=
          Nat.mul_pos (by omega) (by omega)
        omega
      match f₁, f₂ with
      | 0, _ => omega
      | _ + 1, 0 => omega
      | g₁ + 1, g₂ + 1 =>
        simp only [starLoopF]
        match name with
        | [] => rfl
        | c :: nm =>
          simp only
          split
          · rfl
          · split
            · rfl
            · rename_i t ok hmc
              have hT := matchChunk_some_length hmc
              have hM3 : starLoopFuel rest nm < starLoopFuel rest (c :: nm) := by
                rw [starLoopFuel, starLoopFuel]
                simp only [List.length_cons]
                exact FuelBounds.lt_star_star
              split
              · split
                · exact (ih (starLoopFuel rest nm) (by omega)).2
                    _ _ _ g₁ g₂ le_rfl (by omega) (by omega)
                · have hM4 : goMatchFuel rest t < starLoopFuel rest (c :: nm) := by
                    rw [goMatchFuel, starLoopFuel]
                    simp only [List.length_cons]
                    exact FuelBounds.lt_star_go hT
                  exact (ih (goMatchFuel rest t) (by omega)).1
                    _ _ g₁ g₂ le_rfl (by omega) (by omega)
              · exact (ih (starLoopFuel rest nm) (by omega)).2
                  _ _ _ g₁ g₂ le_rfl (by omega) (by omega)

/-- Any fuel of at least `goMatchFuel` computes `goMatch`. -/
theorem goMatchF_fuel {f : Nat} {pattern name : List Char}
    (hf : goMatchFuel pattern name ≤ f) :
    goMatchF f pattern name = goMatch pattern name :=
  (goMatchF_fuel_aux (goMatchFuel pattern name)).1 pattern name f
    (goMatchFuel pattern name) le_rfl hf le_rfl

theorem digitChar_toNat {n : Nat} (h : n < 10) : (Nat.digitChar n).toNat - 48 = n := by
  interval_cases n <;> decide

theorem digitChar_isDigit {n : Nat} (h : n < 10) : (Nat.digitChar n).isDigit = true := by
  interval_cases n <;> decide

theorem toDigitsCore_append :
    ∀ (fuel n : Nat) (ds : List Char),
    Nat.toDigitsCore 10 fuel n ds = Nat.toDigitsCore 10 fuel n [] ++ ds := by
  intro fuel
  induction fuel with
  | zero => intro n ds; rfl
  | succ fuel ih =>
    intro n ds
    simp only [Nat.toDigitsCore]
    split
    · rfl
    · rw [ih (n / 10) (Nat.digitChar (n % 10) :: ds),
        ih (n / 10) [Nat.digitChar (n % 10)], List.append_assoc]
      rfl

theorem toDigitsCore_fuel :
    ∀ (f₁ f₂ n : Nat) (ds : List Char), 0 < f₁ → 0 < f₂ →
    n < 10 ^ f₁ → n < 10 ^ f₂ →
    Nat.toDigitsCore 10 f₁ n ds = Nat.toDigitsCore 10 f₂ n ds := by
  intro f₁
  induction f₁ with
  | zero => intro f₂ n ds h₁; omega
  | succ f₁ ih =>
    intro f₂ n ds _ h₂ hn₁ hn₂
    match f₂, h₂ with
    | f₂ + 1, _ =>
      simp only [Nat.toDigitsCore]
      split
      · rfl
      · rename_i hne
        have hd₁ : n / 10 < 10 ^ f₁ := Nat.div_lt_of_lt_mul (by
          calc n < 10 ^ (f₁ + 1) := hn₁
            _ = 10 * 10 ^ f₁ := by ring)
        have hd₂ : n / 10 < 10 ^ f₂ := Nat.div_lt_of_lt_mul (by
          calc n < 10 ^ (f₂ + 1) := hn₂
            _ = 10 * 10 ^ f₂ := by ring)
        have hf₁ : 0 < f₁ := by
          by_contra h
          have : f₁ = 0 := by omega
          subst this
          simp at hd₁
          exact hne hd₁
        have hf₂ : 0 < f₂ := by
          by_contra h
          have : f₂ = 0 := by omega
          subst this
          simp at hd₂
          exact hne hd₂
        exact ih f₂ (n / 10) _ hf₁ hf₂ hd₁ hd₂

/-- Peeling the last digit: for `n ≥ 10` the digit list of `n` is the digit
list of `n / 10` followed by the digit of `n % 10`. -/
theorem toDigits_step {n : Nat} (h : 10 ≤ n) :
    Nat.toDigits 10 n = Nat.toDigits 10 (n / 10) ++ [Nat.digitChar (n % 10)] := by
  rw [Nat.toDigits, Nat.toDigits]
  simp only [Nat.toDigitsCore]
  have hne : ¬(n / 10 = 0) := by
    have := Nat.div_pos h (by norm_num)
    omega
  rw [if_neg hne]
  rw [toDigitsCore_fuel n (n / 10 + 1) (n / 10) [Nat.digitChar (n % 10)]
    (by omega) (by omega)
    (lt_trans (Nat.div_lt_self (by omega) (by norm_num)) (Nat.lt_pow_self (by norm_num) n))
    (lt_of_lt_of_le (Nat.lt_pow_self (by norm_num) (n / 10))
      (Nat.pow_le_pow_right (by norm_num) (by omega)))]
  exact toDigitsCore_append _ _ _

theorem toDigits_small {n : Nat} (h : n < 10) :
    Nat.toDigits 10 n = [Nat.digitChar n] := by
  rw [Nat.toDigits]
  simp only [Nat.toDigitsCore]
  rw [if_pos (Nat.div_eq_of_lt h), Nat.mod_eq_of_lt h]

theorem parseDigits_append (a : Nat) (l₁ l₂ : List Char) :
    parseDigits a (l₁ ++ l₂) = parseDigits (parseDigits a l₁) l₂ := by
  induction l₁ generalizing a with
  | nil => rfl
  | cons c cs ih =>
    rw [List.cons_append]
    show parseDigits (10 * a + (c.toNat - 48)) (cs ++ l₂)
      = parseDigits (parseDigits (10 * a + (c.toNat - 48)) cs) l₂
    exact ih (10 * a + (c.toNat - 48))

theorem toDigits_length_pos (n : Nat) : 0 < (Nat.toDigits 10 n).length := by
  rcases Nat.lt_or_ge n 10 with h | h
  · rw [toDigits_small h]; simp
  · rw [toDigits_step h]; simp

/-- Round trip: parsing the decimal digit list of `n` with seed `a` yields
`a * 10 ^ digits + n`. -/
theorem parseDigits_toDigits :
    ∀ (n a : Nat),
    parseDigits a (Nat.toDigits 10 n) = a * 10 ^ (Nat.toDigits 10 n).length + n := by
  intro n
  induction n using Nat.strong_induction_on with
  | _ n ih =>
    intro a
    rcases Nat.lt_or_ge n 10 with h | h
    · rw [toDigits_small h]
      calc parseDigits a [Nat.digitChar n]
          = 10 * a + ((Nat.digitChar n).toNat - 48) := rfl
        _ = 10 * a + n := by rw [digitChar_toNat h]
        _ = a * 10 ^ ([Nat.digitChar n]).length + n := by
            simp only [List.length_cons, List.length_nil, pow_one]
            ring
    · have hstep := toDigits_step h
      have hlt : n / 10 < n := Nat.div_lt_self (by omega) (by norm_num)
      have hmod : (Nat.digitChar (n % 10)).toNat - 48 = n % 10 :=
        digitChar_toNat (Nat.mod_lt n (by norm_num))
      have hlen : (Nat.toDigits 10 n).length = (Nat.toDigits 10 (n / 10)).length + 1 := by
        rw [hstep]
        simp
      have hdm := Nat.div_add_mod n 10
      calc parseDigits a (Nat.toDigits 10 n)
          = parseDigits a (Nat.toDigits 10 (n / 10) ++ [Nat.digitChar (n % 10)]) := by
            rw [hstep]
        _ = parseDigits (parseDigits a (Nat.toDigits 10 (n / 10)))
              [Nat.digitChar (n % 10)] := parseDigits_append _ _ _
        _ = parseDigits (a * 10 ^ (Nat.toDigits 10 (n / 10)).length + n / 10)
              [Nat.digitChar (n % 10)] := by rw [ih (n / 10) hlt a]
        _ = 10 * (a * 10 ^ (Nat.toDigits 10 (n / 10)).length + n / 10)
              + ((Nat.digitChar (n % 10)).toNat - 48) := rfl
        _ = 10 * (a * 10 ^ (Nat.toDigits 10 (n / 10)).length + n / 10) + n % 10 := by
            rw [hmod]
        _ = a * 10 ^ (Nat.toDigits 10 n).length + n := by
            rw [hlen, pow_succ]
            ring_nf
            omega

theorem parseDigits_toDigits_zero (n : Nat) :
    parseDigits 0 (Nat.toDigits 10 n) = n := by
  rw [parseDigits_toDigits n 0]
  simp

/-- Decimal printing of naturals is injective. -/
theorem toDigits_injective {m n : Nat} (h : Nat.toDigits 10 m = Nat.toDigits 10 n) :
    m = n := by
  have := parseDigits_toDigits_zero m
  rw [h, parseDigits_toDigits_zero n] at this
  exact this.symm

theorem repr_data (n : Nat) : (Nat.repr n).data = Nat.toDigits 10 n := rfl

/-- `Nat.repr` is injective. -/
theorem repr_injective {m n : Nat} (h : Nat.repr m = Nat.repr n) : m = n :=
  toDigits_injective (by rw [← repr_data, ← repr_data, h])

/-- Every char of the decimal digit list is a digit. -/
theorem toDigits_isDigit :
    ∀ (n : Nat), ∀ c ∈ Nat.toDigits 10 n, c.isDigit = true := by
  intro n
  induction n using Nat.strong_induction_on with
  | _ n ih =>
    intro c hc
    rcases Nat.lt_or_ge n 10 with h | h
    · rw [toDigits_small h] at hc
      rcases List.mem_singleton.mp hc with rfl
      exact digitChar_isDigit h
    · rw [toDigits_step h] at hc
      rcases List.mem_append.mp hc with hc | hc
      · exact ih (n / 10) (Nat.div_lt_self (by omega) (by norm_num)) c hc
      · rcases List.mem_singleton.mp hc with rfl
        exact digitChar_isDigit (Nat.mod_lt n (by norm_num))

theorem strLeCh_total (a b : List Char) : strLeCh a b = true ∨ strLeCh b a = true := by
  induction a generalizing b with
  | nil => exact Or.inl rfl
  | cons x xs ih =>
    match b with
    | [] => exact Or.inr rfl
    | y :: ys =>
      by_cases hxy : x < y
      · left; simp [strLeCh, hxy]
      · by_cases hyx : y < x
        · right; simp [strLeCh, hyx, lt_asymm hyx]
        · have hx : x = y := le_antisymm (le_of_not_lt hyx) (le_of_not_lt hxy)
          subst hx
          rcases ih ys with h | h
          · left; simp [strLeCh, h]
          · right; simp [strLeCh, h]

theorem strLeCh_trans {a b c : List Char} (h₁ : strLeCh a b = true)
    (h₂ : strLeCh b c = true) : strLeCh a c = true := by
  induction a generalizing b c with
  | nil => rfl
  | cons x xs ih =>
    match b with
    | [] => simp [strLeCh] at h₁
    | y :: ys =>
      match c with
      | [] => simp [strLeCh] at h₂
      | z :: zs =>
        simp only [strLeCh] at h₁ h₂ ⊢
        by_cases hxy : x < y
        · by_cases hyz : y < z
          · simp [lt_trans hxy hyz]
          · by_cases hzy : z < y
            · simp [strLeCh, hzy, lt_asymm hzy] at h₂
            · have : y = z := le_antisymm (le_of_not_lt hzy) (le_of_not_lt hyz)
              subst this
              simp [hxy]
        · by_cases hyx : y < x
          · simp [hxy, hyx] at h₁
          · have : x = y := le_antisymm (le_of_not_lt hyx) (le_of_not_lt hxy)
            subst this
            simp only [lt_irrefl, if_false] at h₁ ⊢
            by_cases hyz : x < z
            · simp [hyz]
            · by_cases hzy : z < x
              · simp [hzy, lt_asymm hzy] at h₂
              · have : x = z := le_antisymm (le_of_not_lt hzy) (le_of_not_lt hyz)
                subst this
                simp only [lt_irrefl, if_false] at h₂ ⊢
                exact ih h₁ h₂

theorem strLeCh_antisymm {a b : List Char} (h₁ : strLeCh a b = true)
    (h₂ : strLeCh b a = true) : a = b := by
  induction a generalizing b with
  | nil =>
    match b with
    | [] => rfl
    | y :: ys => simp [strLeCh] at h₂
  | cons x xs ih =>
    match b with
    | [] => simp [strLeCh] at h₁
    | y :: ys =>
      simp only [strLeCh] at h₁ h₂
      by_cases hxy : x < y
      · simp [hxy, lt_asymm hxy] at h₂
      · by_cases hyx : y < x
        · simp [hxy, hyx] at h₁
        · have hx : x = y := le_antisymm (le_of_not_lt hyx) (le_of_not_lt hxy)
          subst hx
          simp only [lt_irrefl, if_false] at h₁ h₂
          rw [ih h₁ h₂]

theorem strLe_total (a b : String) : strLe a b = true ∨ strLe b a = true :=
  strLeCh_total a.data b.data

theorem strLe_trans {a b c : String} (h₁ : strLe a b = true) (h₂ : strLe b c = true) :
    strLe a c = true := strLeCh_trans h₁ h₂

theorem strLe_antisymm {a b : String} (h₁ : strLe a b = true) (h₂ : strLe b a = true) :
    a = b := String.ext (strLeCh_antisymm h₁ h₂)

theorem insertSorted_perm (x : String) (l : List String) :
    List.Perm (insertSorted x l) (x :: l) := by
  induction l with
  | nil => exact List.Perm.refl _
  | cons y ys ih =>
    rw [insertSorted]
    split
    · exact List.Perm.refl _
    · exact List.Perm.trans (List.Perm.cons y ih) (List.Perm.swap x y ys)

theorem sortStrings_perm (l : List String) : List.Perm (sortStrings l) l := by
  induction l with
  | nil => exact List.Perm.refl _
  | cons x xs ih =>
    exact List.Perm.trans (insertSorted_perm x (sortStrings xs)) (List.Perm.cons x ih)

theorem mem_sortStrings {a : String} {l : List String} :
    a ∈ sortStrings l ↔ a ∈ l := (sortStrings_perm l).mem_iff

theorem length_sortStrings (l : List String) : (sortStrings l).length = l.length :=
  (sortStrings_perm l).length_eq

theorem mem_insertSorted {a x : String} {l : List String} :
    a ∈ insertSorted x l ↔ a = x ∨ a ∈ l := by
  rw [(insertSorted_perm x l).mem_iff, List.mem_cons]

theorem insertSorted_pairwise {x : String} {l : List String}
    (h : l.Pairwise (fun a b => strLe a b = true)) :
    (insertSorted x l).Pairwise (fun a b => strLe a b = true) := by
  induction l with
  | nil => simp [insertSorted]
  | cons y ys ih =>
    rw [insertSorted]
    rcases List.pairwise_cons.mp h with ⟨hy, hys⟩
    split
    · rename_i hxy
      refine List.pairwise_cons.mpr ⟨?_, h⟩
      intro b hb
      rcases List.mem_cons.mp hb with rfl | hb
      · exact hxy
      · exact strLe_trans hxy (hy b hb)
    · rename_i hxy
      have hyx : strLe y x = true := by
        rcases strLe_total x y with h' | h'
        · exact absurd h' hxy
        · exact h'
      refine List.pairwise_cons.mpr ⟨?_, ih hys⟩
      intro b hb
      rcases mem_insertSorted.mp hb with rfl | hb
      · exact hyx
      · exact hy b hb

theorem sortStrings_pairwise (l : List String) :
    (sortStrings l).Pairwise (fun a b => strLe a b = true) := by
  induction l with
  | nil => simp [sortStrings]
  | cons x xs ih => exact insertSorted_pairwise ih

/-! ### Retention-step lemmas -/

theorem toNat_deleteCount (n : Nat) :
    (if (n : Int) - 3 < 0 then (0 : Int) else (n : Int) - 3).toNat = n - 3 := by
  split <;> omega

theorem foldl_removeErrs (removeRes : String → Option String) :
    ∀ (l acc : List String),
    l.foldl (fun es name => match removeRes name with
      | none => es
      | some e => es ++ [e]) acc = acc ++ l.filterMap removeRes := by
  intro l
  induction l with
  | nil => intro acc; simp
  | cons x xs ih =>
    intro acc
    simp only [List.foldl, List.filterMap_cons]
    cases removeRes x with
    | none => rw [ih]
    | some e => rw [ih]; simp

theorem retentionPhase_ok_deleted (listing : List String)
    (removeRes : String → Option String) :
    (retentionPhase [] (.ok listing) removeRes).deleted
      = (sortStrings (listing.filter backupRegMatch)).take
          ((listing.filter backupRegMatch).length - 3) := by
  simp only [retentionPhase, List.length_nil, gt_iff_lt, lt_irrefl, if_false]
  rw [toNat_deleteCount]

theorem retentionPhase_ok_errs (listing : List String)
    (removeRes : String → Option String) :
    (retentionPhase [] (.ok listing) removeRes).errs
      = (retentionPhase [] (.ok listing) removeRes).deleted.filterMap removeRes := by
  have h := retentionPhase_ok_deleted listing removeRes
  simp only [retentionPhase, List.length_nil, gt_iff_lt, lt_irrefl, if_false] at h ⊢
  rw [foldl_removeErrs]
  rw [h]
  rfl

/-! ### Claim theorems -/

/-- C1: a run reaching the retention step with an empty error accumulator and
a directory listing with B pattern-matching names attempts exactly
max(0, B-3) deletions (Nat subtraction is that clamp), namely the
lexicographically smallest names of the ascending sort; when B is at most 3
nothing is deleted, and every deleted name is lexicographically at most every
kept (newest) name. -/
theorem retention_deletes_oldest_beyond_three (listing : List String)
    (removeRes : String → Option String) :
    (retentionPhase [] (.ok listing) removeRes).deleted
        = (sortStrings (listing.filter backupRegMatch)).take
            ((listing.filter backupRegMatch).length - 3)
    ∧ (retentionPhase [] (.ok listing) removeRes).deleted.length
        = (listing.filter backupRegMatch).length - 3
    ∧ ((listing.filter backupRegMatch).length ≤ 3 →
        (retentionPhase [] (.ok listing) removeRes).deleted = [])
    ∧ ∀ x ∈ (retentionPhase [] (.ok listing) removeRes).deleted,
        ∀ y ∈ (sortStrings (listing.filter backupRegMatch)).drop
            ((listing.filter backupRegMatch).length - 3),
        strLe x y = true := by
  have hdel := retentionPhase_ok_deleted listing removeRes
  refine ⟨hdel, ?_, ?_, ?_⟩
  · rw [hdel, List.length_take, length_sortStrings]
    omega
  · intro h
    rw [hdel]
    have h0 : (listing.filter backupRegMatch).length - 3 = 0 := by omega
    rw [h0, List.take_zero]
  · intro x hx y hy
    have hp := sortStrings_pairwise (listing.filter backupRegMatch)
    rw [← List.take_append_drop ((listing.filter backupRegMatch).length - 3)
      (sortStrings (listing.filter backupRegMatch))] at hp
    rw [hdel] at hx
    exact (List.pairwise_append.mp hp).2.2 x hx y hy

/-- Witness for C1 at a concrete listing of five eligible names plus the log
file: exactly the two oldest are deleted. -/
theorem retention_deletes_oldest_beyond_three_witness :
    (retentionPhase [] (.ok ["1000000002_UTC-2001-1-3.zip", "log.txt",
        "1000000000_UTC-2001-1-1.zip", "1000000003_UTC-2001-1-4.zip",
        "1000000001_UTC-2001-1-2.zip", "1000000004_UTC-2001-1-5.zip"])
      (fun _ => none)).deleted
      = ["1000000000_UTC-2001-1-1.zip", "1000000001_UTC-2001-1-2.zip"] := by
  have h := (retention_deletes_oldest_beyond_three
    ["1000000002_UTC-2001-1-3.zip", "log.txt",
     "1000000000_UTC-2001-1-1.zip", "1000000003_UTC-2001-1-4.zip",
     "1000000001_UTC-2001-1-2.zip", "1000000004_UTC-2001-1-5.zip"]
    (fun _ => none)).1
  rw [h]
  decide

/-- C2: whenever at least one error was recorded before the retention step,
no deletion is attempted at all and the single diagnostic panic message is
raised (and appended to the accumulator by e.panic). -/
theorem retention_bypassed_on_errors (errs : List String) (h : errs ≠ [])
    (listingRes : Except String (List String)) (removeRes : String → Option String) :
    (retentionPhase errs listingRes removeRes).deleted = []
    ∧ (retentionPhase errs listingRes removeRes).diagnostic = some retentionSkipMsg
    ∧ (retentionPhase errs listingRes removeRes).aborted = true := by
  have hl : errs.length > 0 := List.length_pos.mpr h
  simp only [retentionPhase, if_pos hl]
  exact ⟨trivial, trivial, trivial⟩

/-- Witness for C2: one archiving error, four eligible backups, zero
deletions. -/
theorem retention_bypassed_on_errors_witness :
    ["open failed"] ≠ ([] : List String)
    ∧ (retentionPhase ["open failed"]
        (.ok ["1000000000_UTC-2001-1-1.zip", "1000000001_UTC-2001-1-2.zip",
          "1000000002_UTC-2001-1-3.zip", "1000000003_UTC-2001-1-4.zip"])
        (fun _ => none)).deleted = [] :=
  ⟨by decide, (retention_bypassed_on_errors ["open failed"] (by decide) _ _).1⟩

/-- Counterexample to C7 as stated: a deletion failure IS appended to the
error accumulator (through e.printIfErr, which calls e.print), and in a full
run in which only os.Remove fails the deferred reporter finds a nonempty
accumulator and attempts the enabled provider sends. -/
theorem retention_remove_failure_counterexample :
    (retentionPhase [] (.ok ["1000000000_UTC-2001-1-1.zip",
        "1000000001_UTC-2001-1-2.zip", "1000000002_UTC-2001-1-3.zip",
        "1000000003_UTC-2001-1-4.zip"])
      (fun _ => some "remove failed")).errs = ["remove failed"]
    ∧ (runMain removeFailWorld).body.errs = ["remove failed"]
    ∧ (runMain removeFailWorld).report.sgAttempt ≠ none
    ∧ (runMain removeFailWorld).report.ssAttempt ≠ none := by
  refine ⟨by decide, by decide, by decide, by decide⟩

/-- C7 as amended: each deletion failure does not abort the remaining
deletions — the attempted-deletion list is the full oldest-beyond-three list
whatever removeRes does — and the failures are appended to the error
accumulator in order (via printIfErr), so they can trigger the shutdown
notification. -/
theorem retention_remove_failures_accumulate (listing : List String)
    (removeRes : String → Option String) :
    (retentionPhase [] (.ok listing) removeRes).deleted
        = (sortStrings (listing.filter backupRegMatch)).take
            ((listing.filter backupRegMatch).length - 3)
    ∧ (retentionPhase [] (.ok listing) removeRes).errs
        = (retentionPhase [] (.ok listing) removeRes).deleted.filterMap removeRes :=
  ⟨retentionPhase_ok_deleted listing removeRes, retentionPhase_ok_errs listing removeRes⟩


/-! ### Characterising the retention regex -/

theorem takeDigits_some :
    ∀ {n : Nat} {cs r : List Char}, takeDigits n cs = some r →
    ∃ l, cs = l ++ r ∧ l.length = n ∧ allDigits l := by
  intro n
  induction n with
  | zero =>
    intro cs r h
    rw [takeDigits] at h
    cases h
    exact ⟨[], rfl, rfl, by intro c hc; cases hc⟩
  | succ n ih =>
    intro cs r h
    match cs with
    | [] => cases h
    | c :: cs =>
      rw [takeDigits] at h
      split at h
      · rename_i hc
        rcases ih h with ⟨l, hcs, hlen, hdig⟩
        refine ⟨c :: l, by rw [hcs]; rfl, by simp [hlen], ?_⟩
        intro x hx
        rcases List.mem_cons.mp hx with rfl | hx
        · exact hc
        · exact hdig x hx
      · cases h

theorem takeDigits_append :
    ∀ {l : List Char} {n : Nat}, l.length = n → allDigits l →
    ∀ (r : List Char), takeDigits n (l ++ r) = some r := by
  intro l
  induction l with
  | nil =>
    intro n hn _ r
    subst hn
    rfl
  | cons c cs ih =>
    intro n hn hdig r
    subst hn
    simp only [List.length_cons, List.cons_append, takeDigits,
      hdig c (List.mem_cons_self c cs), if_true]
    exact ih rfl (fun x hx => hdig x (List.mem_cons_of_mem c hx)) r

theorem stripLit_some :
    ∀ {lit cs r : List Char}, stripLit lit cs = some r → cs = lit ++ r := by
  intro lit
  induction lit with
  | nil =>
    intro cs r h
    rw [stripLit] at h
    cases h
    rfl
  | cons l ls ih =>
    intro cs r h
    match cs with
    | [] => cases h
    | c :: cs =>
      rw [stripLit] at h
      split at h
      · rename_i hc
        rw [hc, ih h]
        rfl
      · cases h

theorem stripLit_append :
    ∀ (lit r : List Char), stripLit lit (lit ++ r) = some r := by
  intro lit
  induction lit with
  | nil => intro r; rfl
  | cons l ls ih =>
    intro r
    simp only [List.cons_append, stripLit, if_pos rfl]
    exact ih r

theorem monthDash_some :
    ∀ {cs r : List Char}, monthDash cs = some r →
    ∃ mo, cs = mo ++ '-' :: r ∧ (mo.length = 1 ∨ mo.length = 2) ∧ allDigits mo := by
  intro cs r h
  match cs with
  | [] => cases h
  | [a] => cases h
  | [a, b] =>
    rw [monthDash] at h
    split at h
    · rename_i hc
      cases h
      refine ⟨[a], ?_, Or.inl rfl, ?_⟩
      · rw [hc.2]
        rfl
      · intro x hx
        rcases List.mem_singleton.mp hx with rfl
        exact hc.1
    · cases h
  | a :: b :: c :: rest =>
    rw [monthDash] at h
    split at h
    · rename_i hc
      cases h
      refine ⟨[a, b], ?_, Or.inr rfl, ?_⟩
      · rw [hc.2.2]
        rfl
      · intro x hx
        rcases List.mem_cons.mp hx with rfl | hx
        · exact hc.1
        · rcases List.mem_singleton.mp hx with rfl
          exact hc.2.1
    · split at h
      · rename_i hc
        cases h
        refine ⟨[a], ?_, Or.inl rfl, ?_⟩
        · rw [hc.2]
          rfl
        · intro x hx
          rcases List.mem_singleton.mp hx with rfl
          exact hc.1
      · cases h

theorem monthDash_append {mo : List Char} (hlen : mo.length = 1 ∨ mo.length = 2)
    (hdig : allDigits mo) (rest : List Char) :
    monthDash (mo ++ '-' :: rest) = some rest := by
  have hdash : ('-').isDigit = false := by decide
  rcases hlen with h1 | h2
  · match mo, h1 with
    | [a], _ =>
      have ha : a.isDigit = true := hdig a (List.mem_singleton_self a)
      match rest with
      | [] => simp [monthDash, ha]
      | c :: rest =>
        simp [monthDash, ha, hdash]
  · match mo, h2 with
    | [a, b], _ =>
      have ha : a.isDigit = true := hdig a (by simp)
      have hb : b.isDigit = true := hdig b (by simp)
      simp [monthDash, ha, hb]

theorem dayDigit_append {d : List Char} (hne : d ≠ []) (hdig : allDigits d)
    (rest : List Char) : dayDigit (d ++ rest) = true := by
  match d with
  | [] => exact absurd rfl hne
  | c :: d => simpa [dayDigit] using hdig c (by simp)

theorem dayDigit_some {cs : List Char} (h : dayDigit cs = true) :
    ∃ c rest, cs = c :: rest ∧ c.isDigit = true := by
  match cs with
  | [] => cases h
  | c :: rest => exact ⟨c, rest, rfl, h⟩

/-- The compiled regex of the retention step accepts exactly the names whose
prefix decomposes as ten digits, the literal _UTC-, exactly four digits, a
dash, one or two digits, a dash, and at least one digit (one in the
decomposition, further digits absorbed by the unanchored suffix). -/
theorem backupRegMatch_iff (s : String) :
    backupRegMatch s = true ↔ codeRetentionPattern s := by
  constructor
  · intro h
    rw [backupRegMatch] at h
    split at h
    · exact Bool.noConfusion h
    · rename_i r1 h10
      split at h
      · exact Bool.noConfusion h
      · rename_i r2 hlit
        split at h
        · exact Bool.noConfusion h
        · rename_i r3 h4
          split at h
          · rename_i r4 hr3
            split at h
            · rename_i r5 hm
              rcases takeDigits_some h10 with ⟨ts, hs1, hts, htsd⟩
              rcases takeDigits_some h4 with ⟨y, hs3, hy, hyd⟩
              rcases monthDash_some hm with ⟨mo, hs4, hmol, hmod⟩
              rcases dayDigit_some h with ⟨c, rest, hs5, hcd⟩
              have hs2 := stripLit_some hlit
              refine ⟨ts, y, mo, [c], rest, ?_, hts, htsd, hy, hyd,
                ?_, ?_, hmod, by simp, by simp, ?_⟩
              · rw [hs1, hs2, hs3, hs4, hs5]
                simp [List.append_assoc]
              · exact hmol.elim (fun hh => by omega) (fun hh => by omega)
              · exact hmol.elim (fun hh => by omega) (fun hh => by omega)
              · intro x hx
                rcases List.mem_singleton.mp hx with rfl
                exact hcd
            · exact Bool.noConfusion h
          · exact Bool.noConfusion h
  · rintro ⟨ts, y, mo, d, rest, hs, hts, htsd, hy4, hyd, hmo1, hmo2, hmod,
      hd1, hd2, hdd⟩
    have hshape : s.data
        = ts ++ ("_UTC-".data ++ (y ++ ('-' :: (mo ++ ('-' :: (d ++ rest)))))) := by
      rw [hs]
      simp [List.append_assoc]
    have hdne : d ≠ [] := by
      intro hnil
      rw [hnil] at hd1
      cases hd1
    have hmlen : mo.length = 1 ∨ mo.length = 2 := by omega
    simp only [backupRegMatch, hshape, takeDigits_append hts htsd, stripLit_append,
      takeDigits_append hy4 hyd, monthDash_append hmlen hmod,
      dayDigit_append hdne hdd]

/-- Counterexample to C3 as stated: the claim words the year as 1-4 digits,
but the compiled regex requires exactly four, so a three-digit-year name
satisfies the claimed pattern yet is not selected by the filter. -/
theorem retention_filter_counterexample :
    claimC3Pattern "1000000000_UTC-999-1-1.zip"
    ∧ backupRegMatch "1000000000_UTC-999-1-1.zip" = false := by
  constructor
  · exact ⟨"1000000000".data, "999".data, "1".data, "1".data, ".zip".data, by decide⟩
  · decide

/-- C3 as amended: the retention filter selects exactly the names whose
prefix matches ten digits, _UTC-, EXACTLY four digits, dash, 1-2 digits,
dash, 1-2 digits; and a name the filter rejects is never deleted. -/
theorem retention_filter_exact (name : String) (errs listing : List String)
    (removeRes : String → Option String)
    (h : backupRegMatch name = false) :
    (backupRegMatch name = true ↔ codeRetentionPattern name)
    ∧ name ∉ (retentionPhase errs (.ok listing) removeRes).deleted := by
  refine ⟨backupRegMatch_iff name, ?_⟩
  intro hmem
  rw [retentionPhase] at hmem
  split at hmem
  · cases hmem
  · simp only at hmem
    have h1 : name ∈ sortStrings (listing.filter backupRegMatch) :=
      List.take_subset _ _ hmem
    have h2 : name ∈ listing.filter backupRegMatch := mem_sortStrings.mp h1
    have h3 := List.of_mem_filter h2
    rw [h] at h3
    cases h3

/-- Witness for the amended C3: log.txt is rejected by the filter and never
deleted even among more than three eligible backups, while a well-formed name
satisfies the exact pattern. -/
theorem retention_filter_exact_witness :
    backupRegMatch "log.txt" = false
    ∧ "log.txt" ∉ (retentionPhase [] (.ok ["log.txt",
        "1000000000_UTC-2001-1-1.zip", "1000000001_UTC-2001-1-2.zip",
        "1000000002_UTC-2001-1-3.zip", "1000000003_UTC-2001-1-4.zip"])
        (fun _ => none)).deleted
    ∧ backupRegMatch "1000000000_UTC-2001-1-1.zip" = true :=
  ⟨by decide,
   (retention_filter_exact "log.txt" []
      ["log.txt", "1000000000_UTC-2001-1-1.zip", "1000000001_UTC-2001-1-2.zip",
       "1000000002_UTC-2001-1-3.zip", "1000000003_UTC-2001-1-4.zip"]
      (fun _ => none) (by decide)).2,
   by decide⟩

/-! ### String append helpers -/

theorem strData_append (a b : String) : (a ++ b).data = a.data ++ b.data := rfl

theorem strAppend_assoc (a b c : String) : a ++ b ++ c = a ++ (b ++ c) :=
  String.ext (by simp [strData_append, List.append_assoc])

theorem strAppend_empty (a : String) : a ++ "" = a :=
  String.ext (by simp [strData_append])

theorem strEmpty_append (a : String) : "" ++ a = a :=
  String.ext (by simp [strData_append])

theorem pathJoin_eq_append (a b : String) : ∃ r, pathJoin a b = a ++ r := by
  rw [pathJoin]
  split
  · rename_i ha
    have : a = "" := (String.isEmpty_iff a).mp ha
    subst this
    exact ⟨b, (strEmpty_append b).symm⟩
  · split
    · exact ⟨"", (strAppend_empty a).symm⟩
    · exact ⟨"/" ++ b, strAppend_assoc a "/" b⟩

/-! ### Unfolding equations for addSrc (stated once, proved by cases) -/

theorem addSrc_unfold (node : FSNode) (srcPath dstPath : String) (bl : List String) :
    addSrc node srcPath dstPath bl
      = match blCheck bl (filepathBase srcPath) with
        | .err e => ([], [e])
        | .matched => ([], [])
        | .nomatch =>
          match node with
          | .statErr m => ([], [m])
          | .dir children => addSrcChildren children srcPath dstPath bl
          | .dirReadErr m => ([], [m])
          | .file content => ([(dstPath, content)], [])
          | .fileOpenErr m => ([], [m])
          | .fileCopyErr written m => ([(dstPath, written)], [m]) := by
  cases node <;> rfl

/-! ### C4: the blacklist check of addSrc -/

/-- Counterexample to C4 as stated: the base name x.bad matches the second
blacklist pattern under glob matching, but the malformed first pattern makes
filepath.Match return ErrBadPattern before the match is ever tried, so addSrc
returns that error instead of silently skipping the path. -/
theorem blacklist_match_counterexample :
    goMatchStr "*.bad" (filepathBase "x.bad") = some true
    ∧ addSrc (.file [1]) "x.bad" "dst" ["[", "*.bad"] = ([], [badPatternMsg]) :=
  ⟨by decide, by decide⟩

theorem blCheck_matched_of (base : String) :
    ∀ (pre : List String) (p : String) (post : List String),
    (∀ q ∈ pre, goMatchStr q base ≠ none) →
    goMatchStr p base = some true →
    blCheck (pre ++ p :: post) base = .matched := by
  intro pre
  induction pre with
  | nil =>
    intro p post _ hp
    simp only [List.nil_append, blCheck, hp]
  | cons q qs ih =>
    intro p post hpre hp
    rw [List.cons_append]
    cases hq : goMatchStr q base with
    | none => exact absurd hq (hpre q (List.mem_cons_self q qs))
    | some b =>
      cases b
      · simp only [blCheck, hq]
        exact ih p post (fun x hx => hpre x (List.mem_cons_of_mem q hx)) hp
      · simp only [blCheck, hq]

/-- C4 as amended: if the base name of the path matches some blacklist
pattern and no earlier pattern in the list produces a glob syntax error on
that base name, addSrc skips the path with no error and no archive entries —
and the result is the same for every file-system node, which shows the glob
test precedes any stat and that no recursion into the subtree happens. -/
theorem blacklist_skips_before_stat (node : FSNode) (srcPath dstPath : String)
    (pre : List String) (p : String) (post : List String)
    (hpre : ∀ q ∈ pre, goMatchStr q (filepathBase srcPath) ≠ none)
    (hp : goMatchStr p (filepathBase srcPath) = some true) :
    addSrc node srcPath dstPath (pre ++ p :: post) = ([], []) := by
  have hbl := blCheck_matched_of (filepathBase srcPath) pre p post hpre hp
  rw [addSrc_unfold, hbl]

/-- Witness for the amended C4: a path that cannot even be stat-ed is skipped
silently because its base name matches the second pattern and the first
pattern is well formed. -/
theorem blacklist_skips_before_stat_witness :
    addSrc (.statErr "no such file") "skip.bad" "source-1:-skip.bad"
      ["blacklisted-dir", "*.bad"] = ([], []) :=
  blacklist_skips_before_stat (.statErr "no such file") "skip.bad"
    "source-1:-skip.bad" ["blacklisted-dir"] "*.bad" [] (by decide) (by decide)

/-! ### C5: directory recursion accumulates children -/

theorem addSrcChildren_eq (srcPath dstPath : String) (blacklist : List String) :
    ∀ children, addSrcChildren children srcPath dstPath blacklist
      = ((children.map fun c =>
            (addSrc c.2 (pathJoin srcPath c.1) (pathJoin dstPath c.1) blacklist).1).flatten,
         (children.map fun c =>
            (addSrc c.2 (pathJoin srcPath c.1) (pathJoin dstPath c.1) blacklist).2).flatten) := by
  intro children
  induction children with
  | nil => rfl
  | cons c cs ih =>
    rw [addSrcChildren, ih]
    simp only [List.map_cons, List.flatten_cons]

/-- C5: on a directory that is not excluded, addSrc returns exactly the
in-order concatenation of the recursive results on the immediate children,
each child invoked with the source and archive paths extended by its name; in
particular an error list returned by one child removes neither the entries
nor the errors of any later child. -/
theorem addSrc_dir_accumulates (children : List (String × FSNode))
    (srcPath dstPath : String) (blacklist : List String)
    (h : blCheck blacklist (filepathBase srcPath) = .nomatch) :
    addSrc (.dir children) srcPath dstPath blacklist
      = ((children.map fun c =>
            (addSrc c.2 (pathJoin srcPath c.1) (pathJoin dstPath c.1) blacklist).1).flatten,
         (children.map fun c =>
            (addSrc c.2 (pathJoin srcPath c.1) (pathJoin dstPath c.1) blacklist).2).flatten) := by
  have h1 : addSrc (.dir children) srcPath dstPath blacklist
      = addSrcChildren children srcPath dstPath blacklist := by
    simp only [addSrc, h]
  rw [h1, addSrcChildren_eq]

/-- Witness for C5: a directory whose first child fails to open still gets
its second child archived, with both error and entry present. -/
theorem addSrc_dir_accumulates_witness :
    blCheck [] (filepathBase "s") = .nomatch
    ∧ addSrc (.dir [("bad.txt", .fileOpenErr "open failed"), ("good.txt", .file [7])])
        "s" "d" []
      = ([("d/good.txt", [7])], ["open failed"]) :=
  ⟨by decide,
   by
    rw [addSrc_dir_accumulates
      [("bad.txt", .fileOpenErr "open failed"), ("good.txt", .file [7])] "s" "d" []
      (by decide)]
    decide⟩

/-! ### C6: per-source namespacing -/

theorem takeWhile_digits_append {l : List Char} (hl : allDigits l) {c : Char}
    (hc : c.isDigit = false) (rest : List Char) :
    (l ++ c :: rest).takeWhile (fun x => x.isDigit) = l := by
  induction l with
  | nil => simp [List.takeWhile, hc]
  | cons a as ih =>
    have ha : a.isDigit = true := hl a (List.mem_cons_self a as)
    rw [List.cons_append, List.takeWhile_cons]
    simp only [ha, if_true]
    rw [ih (fun x hx => hl x (List.mem_cons_of_mem a hx))]

/-- Two archive paths carrying the source labels of different indices are
different, whatever the base names and relative suffixes are: the decimal
index is recoverable as the digit run before the first colon. -/
theorem srcLabel_append_inj {i j : Nat} {b₁ b₂ r₁ r₂ : String}
    (h : srcLabel i b₁ ++ r₁ = srcLabel j b₂ ++ r₂) : i = j := by
  have h0 := congrArg String.data h
  simp only [srcLabel, strData_append, List.append_assoc] at h0
  have h1 := List.append_cancel_left h0
  simp only [List.cons_append, List.nil_append] at h1
  have h2 := congrArg (List.takeWhile (fun x => x.isDigit)) h1
  have hnd : (':').isDigit = false := by decide
  rw [repr_data i, repr_data j] at h2
  rw [takeWhile_digits_append (fun c hc => toDigits_isDigit i c hc) hnd,
      takeWhile_digits_append (fun c hc => toDigits_isDigit j c hc) hnd] at h2
  exact toDigits_injective h2

mutual

theorem addSrc_entries_dst (node : FSNode) :
    ∀ (srcPath dstPath : String) (bl : List String),
    ∀ e ∈ (addSrc node srcPath dstPath bl).1, ∃ r, e.1 = dstPath ++ r := by
  intro srcPath dstPath bl e he
  rw [addSrc_unfold] at he
  split at he
  · cases he
  · cases he
  · match node with
    | .statErr m => cases he
    | .dirReadErr m => cases he
    | .fileOpenErr m => cases he
    | .file content =>
      rcases List.mem_singleton.mp he with rfl
      exact ⟨"", (strAppend_empty dstPath).symm⟩
    | .fileCopyErr written m =>
      rcases List.mem_singleton.mp he with rfl
      exact ⟨"", (strAppend_empty dstPath).symm⟩
    | .dir children =>
      exact addSrcChildren_entries_dst children srcPath dstPath bl e he

theorem addSrcChildren_entries_dst (children : List (String × FSNode)) :
    ∀ (srcPath dstPath : String) (bl : List String),
    ∀ e ∈ (addSrcChildren children srcPath dstPath bl).1, ∃ r, e.1 = dstPath ++ r := by
  intro srcPath dstPath bl e he
  match children with
  | [] => cases he
  | (name, child) :: rest =>
    rw [addSrcChildren] at he
    rcases List.mem_append.mp he with h1 | h1
    · rcases addSrc_entries_dst child (pathJoin srcPath name) (pathJoin dstPath name) bl e h1
        with ⟨r, hr⟩
      rcases pathJoin_eq_append dstPath name with ⟨r0, hr0⟩
      exact ⟨r0 ++ r, by rw [hr, hr0, strAppend_assoc]⟩
    · exact addSrcChildren_entries_dst rest srcPath dstPath bl e h1

end

/-- C6: archive paths are namespaced per source. First, paths labelled with
different 1-based source indices are distinct whatever the base names and
in-source relative paths are; second, every entry produced for a source lies
under the destination label it was invoked with; third, on the two-source
example of spec section 8 the archive holds exactly source-1:-a/x.txt and
source-2:-b/y.txt, with skip.bad absent. -/
theorem source_namespacing :
    (∀ (i j : Nat) (b₁ b₂ r₁ r₂ : String),
        srcLabel i b₁ ++ r₁ = srcLabel j b₂ ++ r₂ → i = j)
    ∧ (∀ (node : FSNode) (srcPath dstPath : String) (bl : List String),
        ∀ e ∈ (addSrc node srcPath dstPath bl).1, ∃ r, e.1 = dstPath ++ r)
    ∧ addSources "" exampleFS exampleSources 0
        = ([("source-1:-a/x.txt", [120]), ("source-2:-b/y.txt", [121])], []) :=
  ⟨fun _ _ _ _ _ _ h => srcLabel_append_inj h,
   fun node => addSrc_entries_dst node,
   by decide⟩

/-- Witness for C6: the labels of sources one and two differ even when both
sources share the base name a and the same relative file path. -/
theorem source_namespacing_witness :
    srcLabel 1 "a" ++ "/x.txt" ≠ srcLabel 2 "a" ++ "/x.txt" := by
  intro h
  exact absurd (source_namespacing.1 1 2 "a" "a" "/x.txt" "/x.txt" h) (by decide)

/-! ### C8, C9, C10: the deferred reporter and its providers -/

theorem report_unfold (errs : List String) (config : Configuration)
    (ssHttp sgHttp : HttpOutcome)
    (hc : config.errorContacts.length ≠ 0) (he : errs.length ≠ 0) :
    report errs config ssHttp sgHttp =
      let subject := reportSubject config
      let message := reportMessage config errs
      let ss := if config.salesScribeEnable then
          some (salesScribe config subject message ssHttp) else none
      let sg := if config.sendGridEnable then
          some (sendGrid config subject message sgHttp) else none
      { log :=
          (match ss with
           | some att => "Sending error email via SalesScribe." ::
               (match att.result with | some m => [m] | none => [])
           | none => []) ++
          (match sg with
           | some att => "Sending error email via SendGrid." ::
               (match att.result with | some m => [m] | none => [])
           | none => []),
        ssAttempt := ss, sgAttempt := sg } := by
  rw [report, if_neg hc, if_neg he]

/-- C8: with contacts configured and a nonempty accumulator, each enabled
provider is attempted independently — the SalesScribe attempt is a function
of the SalesScribe inputs only and likewise for SendGrid; an enabled provider
with an empty API key yields a local error and no HTTP send; a non-2xx
response yields an error carrying the status code, the response body or its
placeholder fallback, and the request body; and any error a provider attempt
returns appears in the reporter log. -/
theorem providers_attempted_independently (errs : List String)
    (config : Configuration) (ssHttp sgHttp : HttpOutcome)
    (hc : config.errorContacts.length ≠ 0) (he : errs.length ≠ 0) :
    ((report errs config ssHttp sgHttp).ssAttempt
        = (if config.salesScribeEnable then
            some (salesScribe config (reportSubject config)
              (reportMessage config errs) ssHttp)
          else none))
    ∧ ((report errs config ssHttp sgHttp).sgAttempt
        = (if config.sendGridEnable then
            some (sendGrid config (reportSubject config)
              (reportMessage config errs) sgHttp)
          else none))
    ∧ (∀ subject message, config.salesScribeAPIKey = "" →
        salesScribe config subject message ssHttp
          = { httpSent := none, result := some noSalesScribeKeyMsg })
    ∧ (∀ subject message, config.sendGridAPIKey = "" →
        sendGrid config subject message sgHttp
          = { httpSent := none, result := some noSendGridKeyMsg })
    ∧ (∀ subject message r, config.salesScribeAPIKey ≠ "" →
        ssHttp = .resp r → r.statusCode / 100 ≠ 2 →
        salesScribe config subject message ssHttp
          = { httpSent := some (salesScribeRequestBody config subject message),
              result := some (salesScribeErrMsg r.statusCode
                (r.body.getD "Error retrieving response body")
                (salesScribeRequestBody config subject message)) })
    ∧ (∀ subject message r, config.sendGridAPIKey ≠ "" →
        sgHttp = .resp r → r.statusCode / 100 ≠ 2 →
        sendGrid config subject message sgHttp
          = { httpSent := some (sendGridRequestBody config subject message),
              result := some (sendGridErrMsg r.statusCode
                (r.body.getD "Error reading response body")
                (sendGridRequestBody config subject message)) })
    ∧ (∀ att m, (report errs config ssHttp sgHttp).ssAttempt = some att →
        att.result = some m → m ∈ (report errs config ssHttp sgHttp).log)
    ∧ (∀ att m, (report errs config ssHttp sgHttp).sgAttempt = some att →
        att.result = some m → m ∈ (report errs config ssHttp sgHttp).log) := by
  have hr := report_unfold errs config ssHttp sgHttp hc he
  refine ⟨by rw [hr], by rw [hr], ?_, ?_, ?_, ?_, ?_, ?_⟩
  · intro subject message hkey
    rw [salesScribe, if_pos hkey]
  · intro subject message hkey
    rw [sendGrid, if_pos hkey]
  · intro subject message r hkey hresp hstat
    subst hresp
    simp only [salesScribe, if_neg hkey]
    rw [if_pos hstat]
  · intro subject message r hkey hresp hstat
    subst hresp
    simp only [sendGrid, if_neg hkey]
    rw [if_pos hstat]
  · intro att m hatt hm
    rw [hr] at hatt ⊢
    by_cases hen : config.salesScribeEnable = true
    · simp only [hen, if_true] at hatt ⊢
      rcases Option.some.injEq _ _ ▸ hatt with rfl
      simp [hm]
    · simp [hen] at hatt
  · intro att m hatt hm
    rw [hr] at hatt ⊢
    by_cases hen : config.sendGridEnable = true
    · simp only [hen, if_true] at hatt ⊢
      rcases Option.some.injEq _ _ ▸ hatt with rfl
      simp [hm]
    · simp [hen] at hatt

/-- Witness for C8 on a concrete configuration: one contact, one error, a
SalesScribe response with unreadable body and a SendGrid server error; the
claim theorem yields the attempt of each provider. -/
theorem providers_attempted_independently_witness :
    exampleConfig.errorContacts.length ≠ 0
    ∧ (["boom"] : List String).length ≠ 0
    ∧ (report ["boom"] exampleConfig (.resp ⟨500, none⟩)
          (.resp ⟨503, some "bad"⟩)).ssAttempt
        = (if exampleConfig.salesScribeEnable then
            some (salesScribe exampleConfig (reportSubject exampleConfig)
              (reportMessage exampleConfig ["boom"]) (.resp ⟨500, none⟩))
          else none) :=
  ⟨by decide, by decide,
   (providers_attempted_independently ["boom"] exampleConfig
      (.resp ⟨500, none⟩) (.resp ⟨503, some "bad"⟩)
      (by decide) (by decide)).1⟩

theorem report_ssAttempt_ne_none (errs : List String) (config : Configuration)
    (ssHttp sgHttp : HttpOutcome) :
    (report errs config ssHttp sgHttp).ssAttempt ≠ none ↔
      errs ≠ [] ∧ config.errorContacts ≠ []
        ∧ config.salesScribeEnable = true := by
  rw [report]
  by_cases hc : config.errorContacts.length = 0
  · simp [if_pos hc, List.length_eq_zero.mp hc]
  · by_cases he : errs.length = 0
    · rw [if_neg hc, if_pos he]
      simp [List.length_eq_zero.mp he]
    · have h1 : errs ≠ [] := fun h => he (by rw [h]; rfl)
      have h2 : config.errorContacts ≠ [] := fun h => hc (by rw [h]; rfl)
      by_cases hen : config.salesScribeEnable = true
      · simp [if_neg hc, if_neg he, hen, h1, h2]
      · simp [if_neg hc, if_neg he, hen, h1, h2]

theorem report_sgAttempt_ne_none (errs : List String) (config : Configuration)
    (ssHttp sgHttp : HttpOutcome) :
    (report errs config ssHttp sgHttp).sgAttempt ≠ none ↔
      errs ≠ [] ∧ config.errorContacts ≠ []
        ∧ config.sendGridEnable = true := by
  rw [report]
  by_cases hc : config.errorContacts.length = 0
  · simp [if_pos hc, List.length_eq_zero.mp hc]
  · by_cases he : errs.length = 0
    · rw [if_neg hc, if_pos he]
      simp [List.length_eq_zero.mp he]
    · have h1 : errs ≠ [] := fun h => he (by rw [h]; rfl)
      have h2 : config.errorContacts ≠ [] := fun h => hc (by rw [h]; rfl)
      by_cases hen : config.sendGridEnable = true
      · simp [if_neg hc, if_neg he, hen, h1, h2]
      · simp [if_neg hc, if_neg he, hen, h1, h2]

/-- Counterexample to C9 as stated: a run whose accumulator is nonempty at
exit (a source stat fails) but whose configuration names no contacts — the
deferred reporter runs, yet neither provider send is attempted, so the
sending is not gated only on the accumulator. -/
theorem report_gating_counterexample :
    (runMain noContactsWorld).body.errs ≠ []
    ∧ noContactsWorld.unmarshalRes = .ok noContactsConfig
    ∧ noContactsConfig.salesScribeEnable = true
    ∧ noContactsConfig.sendGridEnable = true
    ∧ (runMain noContactsWorld).report.ssAttempt = none
    ∧ (runMain noContactsWorld).report.sgAttempt = none := by
  refine ⟨by decide, rfl, by decide, by decide, by decide, by decide⟩

/-- C9 as amended: the deferred reporter executes on every exit path of main
— runMain always applies report to the accumulator and configuration the
body ended with, covering the early usage return, every panic unwind and
normal completion — but a provider send is attempted if and only if the
accumulator is nonempty AND the configuration names at least one error
contact AND that provider is enabled. -/
theorem notifier_runs_on_every_path (w : MainWorld) :
    ((runMain w).report
        = report (runMain w).body.errs (runMain w).body.config w.ssHttp w.sgHttp)
    ∧ ((runMain w).report.ssAttempt ≠ none ↔
        (runMain w).body.errs ≠ []
        ∧ (runMain w).body.config.errorContacts ≠ []
        ∧ (runMain w).body.config.salesScribeEnable = true)
    ∧ ((runMain w).report.sgAttempt ≠ none ↔
        (runMain w).body.errs ≠ []
        ∧ (runMain w).body.config.errorContacts ≠ []
        ∧ (runMain w).body.config.sendGridEnable = true) :=
  ⟨rfl,
   report_ssAttempt_ne_none (mainBody w).errs (mainBody w).config w.ssHttp w.sgHttp,
   report_sgAttempt_ne_none (mainBody w).errs (mainBody w).config w.ssHttp w.sgHttp⟩

/-- C10: with an empty errorContacts list the reporter logs the warning and
returns at once — no provider attempt is made, whatever the accumulator, the
enable flags, the keys and the network hold. -/
theorem no_contacts_no_send (errs : List String) (config : Configuration)
    (ssHttp sgHttp : HttpOutcome) (hc : config.errorContacts = []) :
    report errs config ssHttp sgHttp
      = { log := [reportWarnMsg], ssAttempt := none, sgAttempt := none } := by
  rw [report, hc]
  rfl

/-- Witness for C10: a nonempty accumulator, both providers enabled with
nonempty keys and healthy networks, yet the contact-free configuration makes
the reporter warn and send nothing. -/
theorem no_contacts_no_send_witness :
    noContactsConfig.errorContacts = []
    ∧ noContactsConfig.salesScribeEnable = true
    ∧ noContactsConfig.sendGridEnable = true
    ∧ noContactsConfig.salesScribeAPIKey ≠ ""
    ∧ noContactsConfig.sendGridAPIKey ≠ ""
    ∧ report ["boom"] noContactsConfig (.resp ⟨200, some ""⟩) (.resp ⟨200, some ""⟩)
        = { log := [reportWarnMsg], ssAttempt := none, sgAttempt := none } :=
  ⟨by decide, by decide, by decide, by decide, by decide,
   no_contacts_no_send ["boom"] noContactsConfig
     (.resp ⟨200, some ""⟩) (.resp ⟨200, some ""⟩) (by decide)⟩

end WFB
